import Mathlib

/-!
Shallow embedding of the component/property validator of
`src/validate/index.ts` (the current iteration of the file).

JS values that the validator inspects only through truthiness or a small
set of shape tests are modelled by small inductive types; `Option` models
presence/absence (`undefined`), and numeric fields are `Int` (the code
compares them with `< 1` and tests truthiness, where `0` is falsy).
-/

/-- Severity of a diagnostic, as in the `Severity` type of the source. -/
inductive Severity where
  | error
  | warning
deriving Repr, DecidableEq

/-- A diagnostic record, as in the `FieldValidation` interface of the source.
`attr` embeds the source field `attribute` (a Lean keyword). `property` and
`severity` are optional in the source (component-level diagnostics omit
both). -/
structure FieldValidation where
  message : String
  attr : String
  property : Option String
  severity : Option Severity
deriving Repr, DecidableEq

/-- JS truthiness of an optional string: `undefined` and `""` are falsy. -/
def strTruthy : Option String → Bool
  | none => false
  | some s => !(s == "")

/-- JS truthiness of an optional integer-valued number: `undefined` and `0`
are falsy. -/
def numTruthy : Option Int → Bool
  | none => false
  | some n => !(n == 0)

/-- The value found in a `default` slot, as far as the validator inspects it:
absent (`undefined`), `null`, a primitive with a given truthiness, or an
object carrying a set of keys (tested with the `in` operator). -/
inductive DefaultVal where
  | dUndefined
  | dNull
  | dPrim (truthy : Bool)
  | dObj (keys : List String)
deriving Repr, DecidableEq

/-- The value found in a `tags` slot: a falsy value, an array (always truthy
in JS, even when empty), or a truthy non-array value. -/
inductive TagsVal where
  | tFalsy
  | tArray
  | tOtherTruthy
deriving Repr, DecidableEq

/-- The value of `rules.required` as far as the validator distinguishes it:
the boolean `true`, the boolean `false`, or anything else (absent, numbers,
strings, objects, ...). -/
inductive ReqVal where
  | rTrue
  | rFalse
  | rOther
deriving Repr, DecidableEq

/-- `rules.content`: optional numeric `min`/`max` bounds. -/
structure ContentRules where
  min : Option Int
  max : Option Int
deriving Repr, DecidableEq

/-- `rules.dimensions.min`: numeric `width`/`height`. -/
structure DimMin where
  width : Option Int
  height : Option Int
deriving Repr, DecidableEq

/-- `rules.dimensions`: an optional `min` object. -/
structure Dimensions where
  min : Option DimMin
deriving Repr, DecidableEq

/-- The `rules` bundle of a property. -/
structure Rules where
  required : ReqVal
  content : Option ContentRules
  dimensions : Option Dimensions
deriving Repr, DecidableEq

/-- A `PropertyDefinition` tree node. `items`, when present, carries the
nested `items.type` and the optional `items.properties` mapping, modelled as
an association list in JS object-iteration order. -/
inductive PropertyDefinition where
  | mk (type : Option String) (name : Option String) (description : Option String)
       (dflt : DefaultVal) (rules : Option Rules)
       (items : Option (Option String × Option (List (String × PropertyDefinition))))

/-- Projection: the `type` slot of a property. -/
def PropertyDefinition.type : PropertyDefinition → Option String
  | .mk t _ _ _ _ _ => t

/-- Projection: the `name` slot of a property. -/
def PropertyDefinition.name : PropertyDefinition → Option String
  | .mk _ n _ _ _ _ => n

/-- Projection: the `description` slot of a property. -/
def PropertyDefinition.description : PropertyDefinition → Option String
  | .mk _ _ d _ _ _ => d

/-- Projection: the `default` slot of a property. -/
def PropertyDefinition.dflt : PropertyDefinition → DefaultVal
  | .mk _ _ _ df _ _ => df

/-- Projection: the `rules` slot of a property. -/
def PropertyDefinition.rules : PropertyDefinition → Option Rules
  | .mk _ _ _ _ r _ => r

/-- Projection: the `items` slot of a property. -/
def PropertyDefinition.items :
    PropertyDefinition → Option (Option String × Option (List (String × PropertyDefinition)))
  | .mk _ _ _ _ _ it => it

/-- The top-level `HandoffComponent` under validation. -/
structure HandoffComponent where
  code : Option String
  title : Option String
  tags : TagsVal
  properties : Option (List (String × PropertyDefinition))

/-- Modelled from the spec: the `FieldTypes` enumeration is imported from
`src/fields/types.ts`, a file not among the provided sources. The spec (§3)
gives the enumeration as {text, array, image, link, button, group}. -/
def FieldTypes : List String :=
  ["text", "array", "image", "link", "button", "group"]

/-- Lines 23–37 of the source `validateField`: `type` presence and
membership in `FieldTypes` (`indexOf === -1` is non-membership). -/
def typeBlock (ty : Option String) (key : String) : List FieldValidation :=
  if strTruthy ty = false then
    [⟨"Field type is required", "type", some key, some .error⟩]
  else if FieldTypes.contains (ty.getD "") = false then
    [⟨"Field type " ++ ty.getD "" ++ " is invalid", "type", some key, some .error⟩]
  else []

/-- Lines 38–45: `description` presence (warning). -/
def descriptionBlock (ds : Option String) (key : String) : List FieldValidation :=
  if strTruthy ds = false then
    [⟨"Field description is required", "description", some key, some .warning⟩]
  else []

/-- Lines 46–53: `name` presence (error). -/
def nameBlock (nm : Option String) (key : String) : List FieldValidation :=
  if strTruthy nm = false then
    [⟨"Field name is required", "name", some key, some .error⟩]
  else []

/-- Lines 54–61: `default === undefined && type !== "array"` (warning). -/
def defaultBlock (df : DefaultVal) (ty : Option String) (key : String) :
    List FieldValidation :=
  if df = DefaultVal.dUndefined ∧ ty ≠ some "array" then
    [⟨"Field default is required", "default", some key, some .warning⟩]
  else []

/-- Lines 71–78: `rules.required` must be exactly `true` or `false`. -/
def requiredBlock (r : Rules) (key : String) : List FieldValidation :=
  match r.required with
  | .rOther => [⟨"Field rules.required is required", "rules.required", some key, some .error⟩]
  | _ => []

/-- Lines 79–96: generic checks when `rules.content` is present; note both
warnings carry attribute `rules.content.min` in the source. -/
def contentGenericBlock (r : Rules) (key : String) : List FieldValidation :=
  match r.content with
  | none => []
  | some c =>
    (if numTruthy c.min = false ∧ r.required = ReqVal.rTrue then
       [⟨"Content rules must have a minimum length", "rules.content.min", some key, some .warning⟩]
     else []) ++
    (if numTruthy c.max = false then
       [⟨"Content rules must have a maximum length", "rules.content.min", some key, some .warning⟩]
     else [])

/-- Lines 97–106: `text` fields require `rules.content`. -/
def textBlock (ty : Option String) (r : Rules) (key : String) : List FieldValidation :=
  if ty = some "text" ∧ r.content = none then
    [⟨"Content rules are required for text fields", "rules.content", some key, some .error⟩]
  else []

/-- Lines 108–146: the `rules.content` checks of the `array` branch; the
`min`/`max` falsy tests precede the `< 1` comparisons, and the max-absent
error carries attribute `rules.content.min` in the source. -/
def arrayContentBlock (r : Rules) (key : String) : List FieldValidation :=
  match r.content with
  | none =>
    [⟨"Content rules are required for array fields", "rules.content", some key, some .error⟩]
  | some c =>
    (if numTruthy c.min = false then
       [⟨"Array fields must have a minimum content length", "rules.content.min", some key, some .error⟩]
     else if c.min.getD 0 < 1 then
       [⟨"Array fields must have a maximum content length", "rules.content.min", some key, some .error⟩]
     else []) ++
    (if numTruthy c.max = false then
       [⟨"Content rules must have a maximum length", "rules.content.min", some key, some .error⟩]
     else if c.max.getD 0 < 1 then
       [⟨"Content rules maximum length must be greater than 0", "rules.content.max", some key, some .error⟩]
     else [])

/-- Lines 155–169: `items.type` presence and validity. -/
def itemsTypeBlock (ity : Option String) (key : String) : List FieldValidation :=
  if strTruthy ity = false then
    [⟨"Type is required for array fields", "items.type", some key, some .error⟩]
  else if FieldTypes.contains (ity.getD "") = false then
    [⟨"Field type " ++ ity.getD "" ++ " is invalid", "items.type", some key, some .error⟩]
  else []

/-- Lines 186–212: the `link` branch; `!default || typeof default !== "object"`
rejects everything except an object value, then the `url`/`text` keys are
tested with the `in` operator. -/
def linkBlock (ty : Option String) (df : DefaultVal) (key : String) : List FieldValidation :=
  if ty = some "link" then
    match df with
    | .dObj keys =>
      (if keys.contains "url" = false then
         [⟨"Default url is required for link fields", "image.default.url", some key, some .error⟩]
       else []) ++
      (if keys.contains "text" = false then
         [⟨"Default text is required for link fields", "link.default.text", some key, some .error⟩]
       else [])
    | _ => [⟨"Default is required for link fields", "default", some key, some .error⟩]
  else []

/-- Lines 213–238: the `button` branch; the source reuses the "link fields"
message for the missing default and "image fields" wording for the keys. -/
def buttonBlock (ty : Option String) (df : DefaultVal) (key : String) : List FieldValidation :=
  if ty = some "button" then
    match df with
    | .dObj keys =>
      (if keys.contains "url" = false then
         [⟨"Default url is required for image fields", "image.default.url", some key, some .error⟩]
       else []) ++
      (if keys.contains "label" = false then
         [⟨"Default label is required for image fields", "link.default.label", some key, some .error⟩]
       else [])
    | _ => [⟨"Default is required for link fields", "default", some key, some .error⟩]
  else []

/-- Lines 266–299: the `rules.dimensions` checks of the `image` branch. -/
def dimensionsBlock (r : Rules) (key : String) : List FieldValidation :=
  match r.dimensions with
  | none =>
    [⟨"Dimensions are required for image fields", "rules.dimensions", some key, some .error⟩]
  | some dims =>
    match dims.min with
    | none =>
      [⟨"Minimum is required for image fields", "rules.dimensions.min", some key, some .error⟩]
    | some mn =>
      (if numTruthy mn.width = false then
         [⟨"Minimum width is required for image fields", "rules.dimensions.width", some key, some .error⟩]
       else []) ++
      (if numTruthy mn.height = false then
         [⟨"Minimum height is required for image fields", "rules.dimensions.height", some key, some .error⟩]
       else [])

/-- Lines 240–300: the `image` branch (default object with `src`/`alt`,
then the dimensions checks). -/
def imageBlock (ty : Option String) (df : DefaultVal) (r : Rules) (key : String) :
    List FieldValidation :=
  if ty = some "image" then
    (match df with
     | .dObj keys =>
       (if keys.contains "src" = false then
          [⟨"Default src is required for image fields", "image.default.src", some key, some .error⟩]
        else []) ++
       (if keys.contains "alt" = false then
          [⟨"Default alt is required for image fields", "image.default.alt", some key, some .error⟩]
        else [])
     | _ => [⟨"Default is required for image fields", "default", some key, some .error⟩]) ++
    dimensionsBlock r key
  else []

mutual
/-- The source `validateField` (lines 18–304): the blocks above concatenated
in push order; the `array` branch recurses into `items.properties` under the
nested keys. -/
def validateField (p : PropertyDefinition) (key : String) : List FieldValidation :=
  match p with
  | .mk ty nm ds df rl it =>
    typeBlock ty key ++ descriptionBlock ds key ++ nameBlock nm key ++
    defaultBlock df ty key ++
    (match rl with
     | none => [⟨"Field rules are required", "rules", some key, some .warning⟩]
     | some r =>
       requiredBlock r key ++ contentGenericBlock r key ++ textBlock ty r key ++
       (if ty = some "array" then
          arrayContentBlock r key ++
          (match it with
           | none => [⟨"Items are required for array fields", "items", some key, some .error⟩]
           | some (ity, iprops) =>
             itemsTypeBlock ity key ++
             (match iprops with
              | none =>
                [⟨"Properties are required for array fields", "items.properties", some key, some .error⟩]
              | some ps => validateProps ps))
        else []) ++
       linkBlock ty df key ++ buttonBlock ty df key ++ imageBlock ty df r key)
/-- The `for (let key in property.items.properties)` loop of the source:
diagnostics of the entries concatenated in iteration order. -/
def validateProps (ps : List (String × PropertyDefinition)) : List FieldValidation :=
  match ps with
  | [] => []
  | (k, q) :: rest => validateField q k ++ validateProps rest
end

mutual
/-- The keys that occur as entries of `items.properties` anywhere strictly
below a property node; diagnostics produced by the recursive calls of
`validateField` carry these keys in their `property` slot. -/
def keysBelow (p : PropertyDefinition) : List String :=
  match p with
  | .mk _ _ _ _ _ it =>
    match it with
    | some (_, some ps) => keysBelowProps ps
    | _ => []
/-- Keys of an `items.properties` mapping together with all keys below its
entries. -/
def keysBelowProps (ps : List (String × PropertyDefinition)) : List String :=
  match ps with
  | [] => []
  | (k, q) :: rest => k :: (keysBelow q ++ keysBelowProps rest)
end

/-- A `default` that is an object carrying both given keys. -/
def defaultObjWith (df : DefaultVal) (k1 k2 : String) : Bool :=
  match df with
  | .dObj keys => keys.contains k1 && keys.contains k2
  | _ => false

/-- `rules.dimensions` fully populated: `min` present with truthy width and
height. -/
def dimensionsOK (r : Rules) : Bool :=
  match r.dimensions with
  | some dims =>
    (match dims.min with
     | some mn => numTruthy mn.width && numTruthy mn.height
     | none => false)
  | none => false

/-- A numeric bound that is present and at least 1. -/
def boundPos (o : Option Int) : Bool :=
  match o with
  | some m => decide (1 ≤ m)
  | none => false

/-- The generic `rules.content` constraints when present: a truthy `max`,
and a truthy `min` whenever `required` is `true`. -/
def contentOK (r : Rules) : Bool :=
  match r.content with
  | none => true
  | some c => numTruthy c.max && (!(r.required == ReqVal.rTrue) || numTruthy c.min)

/-- `rules.content` present with both bounds at least 1. -/
def arrayContentOK (r : Rules) : Bool :=
  match r.content with
  | some c => boundPos c.min && boundPos c.max
  | none => false

mutual
/-- The class of fully populated properties described by the spec's valid
components: a type from `FieldTypes`, a name, a description, `rules` with a
boolean `required`, generic content bounds satisfied when `content` is
present, and the type-appropriate `default`/`content`/`dimensions`/`items`
data (for arrays: `content.min ≥ 1`, `content.max ≥ 1`, items with a valid
type and recursively valid properties). -/
def validPropertyB (p : PropertyDefinition) : Bool :=
  match p with
  | .mk ty nm ds df rl it =>
    strTruthy ty && FieldTypes.contains (ty.getD "") &&
    strTruthy nm && strTruthy ds &&
    (ty == some "array" || !(df == DefaultVal.dUndefined)) &&
    (match rl with
     | none => false
     | some r =>
       (r.required == ReqVal.rTrue || r.required == ReqVal.rFalse) &&
       contentOK r &&
       (!(ty == some "text") || r.content.isSome) &&
       (!(ty == some "array") ||
         (arrayContentOK r &&
          (match it with
           | some (ity, some ps) =>
             strTruthy ity && FieldTypes.contains (ity.getD "") && validPropsB ps
           | _ => false))) &&
       (!(ty == some "link") || defaultObjWith df "url" "text") &&
       (!(ty == some "button") || defaultObjWith df "url" "label") &&
       (!(ty == some "image") || (defaultObjWith df "src" "alt" && dimensionsOK r)))
/-- Every entry of a property mapping is valid. -/
def validPropsB (ps : List (String × PropertyDefinition)) : Bool :=
  match ps with
  | [] => true
  | (_, q) :: rest => validPropertyB q && validPropsB rest
end

/-- The class of valid components of the spec: a `code`, a `title`, an
array-valued `tags`, and a non-empty `properties` mapping whose entries are
all fully populated. -/
def validComponentB (c : HandoffComponent) : Bool :=
  strTruthy c.code && strTruthy c.title && (c.tags == TagsVal.tArray) &&
  (match c.properties with
   | some ps => !ps.isEmpty && validPropsB ps
   | none => false)

/-- A JS member access on a possibly-`undefined` base: accessing a member of
`undefined` raises a `TypeError`. -/
def jsGet {α : Type} (o : Option α) : Except String α :=
  match o with
  | none => Except.error "TypeError"
  | some v => Except.ok v

/-- The JS `in` operator: raises a `TypeError` unless its right operand is an
object. -/
def jsIn (df : DefaultVal) (k : String) : Except String Bool :=
  match df with
  | .dObj keys => Except.ok (keys.contains k)
  | _ => Except.error "TypeError"

/-- Lines 79–96 with every member access below `property` made explicit:
`property.rules.content` and `property.rules.content.min`/`.max` each walk
through `jsGet`, failing if the intermediate object were absent. -/
def contentGenericBlockE (rl : Option Rules) (key : String) :
    Except String (List FieldValidation) := do
  let r ← jsGet rl
  match r.content with
  | none => pure []
  | some _ => do
    let _ ← jsGet r.content
    pure (contentGenericBlock r key)

/-- Lines 97–106 with explicit member accesses. -/
def textBlockE (ty : Option String) (rl : Option Rules) (key : String) :
    Except String (List FieldValidation) := do
  if ty = some "text" then do
    let r ← jsGet rl
    pure (textBlock ty r key)
  else pure []

/-- Lines 108–146 with explicit member accesses. -/
def arrayContentBlockE (rl : Option Rules) (key : String) :
    Except String (List FieldValidation) := do
  let r ← jsGet rl
  match r.content with
  | none => pure (arrayContentBlock r key)
  | some _ => do
    let _ ← jsGet r.content
    pure (arrayContentBlock r key)

/-- Lines 186–212 with the `in` operator made explicit. -/
def linkBlockE (ty : Option String) (df : DefaultVal) (key : String) :
    Except String (List FieldValidation) := do
  if ty = some "link" then
    match df with
    | .dObj _ => do
      let _ ← jsIn df "url"
      let _ ← jsIn df "text"
      pure (linkBlock ty df key)
    | _ => pure (linkBlock ty df key)
  else pure []

/-- Lines 213–238 with the `in` operator made explicit. -/
def buttonBlockE (ty : Option String) (df : DefaultVal) (key : String) :
    Except String (List FieldValidation) := do
  if ty = some "button" then
    match df with
    | .dObj _ => do
      let _ ← jsIn df "url"
      let _ ← jsIn df "label"
      pure (buttonBlock ty df key)
    | _ => pure (buttonBlock ty df key)
  else pure []

/-- Lines 266–299 with explicit member accesses along
`property.rules.dimensions.min.width`/`.height`. -/
def dimensionsBlockE (rl : Option Rules) (key : String) :
    Except String (List FieldValidation) := do
  let r ← jsGet rl
  match r.dimensions with
  | none => pure (dimensionsBlock r key)
  | some _ => do
    let dims ← jsGet r.dimensions
    match dims.min with
    | none => pure (dimensionsBlock r key)
    | some _ => do
      let _ ← jsGet dims.min
      pure (dimensionsBlock r key)

/-- Lines 240–300 with the `in` operator and dimension accesses explicit. -/
def imageBlockE (ty : Option String) (df : DefaultVal) (rl : Option Rules) (key : String) :
    Except String (List FieldValidation) := do
  if ty = some "image" then do
    let dfPart ←
      match df with
      | .dObj _ => do
        let _ ← jsIn df "src"
        let _ ← jsIn df "alt"
        pure
          (match df with
           | .dObj keys =>
             (if keys.contains "src" = false then
                [⟨"Default src is required for image fields", "image.default.src", some key, some .error⟩]
              else []) ++
             (if keys.contains "alt" = false then
                [⟨"Default alt is required for image fields", "image.default.alt", some key, some .error⟩]
              else [])
           | _ => [⟨"Default is required for image fields", "default", some key, some .error⟩])
      | _ =>
        pure [⟨"Default is required for image fields", "default", some key, some .error⟩]
    let dimsPart ← dimensionsBlockE rl key
    pure (dfPart ++ dimsPart)
  else pure []

mutual
/-- The source `validateField` in an exception-explicit semantics: every
member access of the form `property.x.y` (which in JS raises a `TypeError`
when `property.x` is `undefined`) is performed through `jsGet`/`jsIn`; the
function returns `Except.error` if any such access were ever unguarded. -/
def validateFieldE (p : PropertyDefinition) (key : String) :
    Except String (List FieldValidation) :=
  match p with
  | .mk ty nm ds df rl it => do
    let base :=
      typeBlock ty key ++ descriptionBlock ds key ++ nameBlock nm key ++
      defaultBlock df ty key
    match rl with
    | none => pure (base ++ [⟨"Field rules are required", "rules", some key, some .warning⟩])
    | some _ => do
      let r ← jsGet rl
      let reqPart := requiredBlock r key
      let cgPart ← contentGenericBlockE rl key
      let txtPart ← textBlockE ty rl key
      let arrPart ←
        if ty = some "array" then do
          let acPart ← arrayContentBlockE rl key
          let itPart ←
            match it with
            | none =>
              pure [(⟨"Items are required for array fields", "items", some key, some .error⟩ : FieldValidation)]
            | some (ity, iprops) => do
              let _ ← jsGet it
              let tPart := itemsTypeBlock ity key
              match iprops with
              | none =>
                pure (tPart ++
                  [⟨"Properties are required for array fields", "items.properties", some key, some .error⟩])
              | some ps => do
                let _ ← jsGet it
                let nested ← validatePropsE ps
                pure (tPart ++ nested)
          pure (acPart ++ itPart)
        else pure []
      let linkPart ← linkBlockE ty df key
      let buttonPart ← buttonBlockE ty df key
      let imagePart ← imageBlockE ty df rl key
      pure (base ++ reqPart ++ cgPart ++ txtPart ++ arrPart ++ linkPart ++ buttonPart ++ imagePart)
/-- The recursion loop of `validateFieldE`. -/
def validatePropsE (ps : List (String × PropertyDefinition)) :
    Except String (List FieldValidation) :=
  match ps with
  | [] => pure []
  | (k, q) :: rest => do
    let d ← validateFieldE q k
    let drest ← validatePropsE rest
    pure (d ++ drest)
end

/-- A fully populated `text` property. -/
def pText : PropertyDefinition :=
  .mk (some "text") (some "Headline") (some "The headline copy") (.dPrim true)
    (some ⟨.rTrue, some ⟨some 1, some 100⟩, none⟩) none

/-- A fully populated `image` property. -/
def pImage : PropertyDefinition :=
  .mk (some "image") (some "Image") (some "The image") (.dObj ["src", "alt"])
    (some ⟨.rFalse, none, some ⟨some ⟨some 1200, some 600⟩⟩⟩) none

/-- A fully populated `link` property. -/
def pLink : PropertyDefinition :=
  .mk (some "link") (some "Link") (some "The link") (.dObj ["url", "text"])
    (some ⟨.rFalse, none, none⟩) none

/-- A fully populated `button` property. -/
def pButton : PropertyDefinition :=
  .mk (some "button") (some "Button") (some "The button") (.dObj ["url", "label"])
    (some ⟨.rTrue, none, none⟩) none

/-- A fully populated `group` property. -/
def pGroup : PropertyDefinition :=
  .mk (some "group") (some "Group") (some "A group") (.dPrim true)
    (some ⟨.rFalse, none, none⟩) none

/-- A fully populated `array` property with nested properties. -/
def pArray : PropertyDefinition :=
  .mk (some "array") (some "Slides") (some "The slides") .dUndefined
    (some ⟨.rTrue, some ⟨some 1, some 10⟩, none⟩)
    (some (some "group", some [("headline", pText), ("image", pImage)]))

/-- A fully populated component covering every field type. -/
def validComp : HandoffComponent :=
  ⟨some "hero", some "Hero", .tArray,
   some [("headline", pText), ("slides", pArray), ("cta", pLink), ("btn", pButton),
         ("img", pImage), ("grp", pGroup)]⟩

/-- A property whose `rules.required` is neither boolean. -/
def pBadRequired : PropertyDefinition :=
  .mk (some "text") (some "T") (some "D") (.dPrim true)
    (some ⟨.rOther, some ⟨some 1, some 2⟩, none⟩) none

/-- A `text` property with no `default`. -/
def pNoDefault : PropertyDefinition :=
  .mk (some "text") (some "T") (some "D") .dUndefined
    (some ⟨.rTrue, some ⟨some 1, some 2⟩, none⟩) none

/-- A nested property carrying no `type`. -/
def pBadNested : PropertyDefinition :=
  .mk none none none .dUndefined none none

/-- An `array` property whose `items.properties` holds a field without a
`type`. -/
def pArrayBadNested : PropertyDefinition :=
  .mk (some "array") (some "Slides") (some "d") .dUndefined
    (some ⟨.rTrue, some ⟨some 1, some 10⟩, none⟩)
    (some (some "group", some [("badfield", pBadNested)]))

/-- An `array` property with `rules.content.min = 0`. -/
def pArrayMinZero : PropertyDefinition :=
  .mk (some "array") (some "Slides") (some "d") .dUndefined
    (some ⟨.rTrue, some ⟨some 0, some 5⟩, none⟩) none

/-- An `array` property with `rules.content.min = -1`. -/
def pArrayMinNeg : PropertyDefinition :=
  .mk (some "array") (some "Slides") (some "d") .dUndefined
    (some ⟨.rTrue, some ⟨some (-1), some 5⟩, none⟩) none

/-- An `array` property with `rules.content.min` absent. -/
def pArrayMinAbsent : PropertyDefinition :=
  .mk (some "array") (some "Slides") (some "d") .dUndefined
    (some ⟨.rTrue, some ⟨none, some 5⟩, none⟩) none

/-- An `array` property whose `rules.content` has neither bound. -/
def pArrayNoBounds : PropertyDefinition :=
  .mk (some "array") (some "Slides") (some "d") .dUndefined
    (some ⟨.rTrue, some ⟨none, none⟩, none⟩) none

/-- An `array` property with `rules.content.max = -1`. -/
def pArrayMaxNeg : PropertyDefinition :=
  .mk (some "array") (some "Slides") (some "d") .dUndefined
    (some ⟨.rTrue, some ⟨some 1, some (-1)⟩, none⟩) none

/-- A `link` property with `rules` present and no `default`. -/
def pLinkNoDefault : PropertyDefinition :=
  .mk (some "link") (some "L") (some "D") .dUndefined
    (some ⟨.rTrue, none, none⟩) none

/-- The source `validateModule` (lines 306–337). -/
def validateModule (c : HandoffComponent) : List FieldValidation :=
  (if strTruthy c.code = false then [⟨"Component code is required", "code", none, none⟩] else []) ++
  (if strTruthy c.title = false then [⟨"Component title is required", "title", none, none⟩] else []) ++
  (match c.tags with
   | .tFalsy => [⟨"Component tags are required", "tags", none, none⟩]
   | .tArray => []
   | .tOtherTruthy => [⟨"Component tags must be an array", "tags", none, none⟩]) ++
  (match c.properties with
   | none => [⟨"Component properties are required", "properties", none, none⟩]
   | some ps => validateProps ps)

/-! ### Membership characterisation of the individual blocks -/

theorem mem_typeBlock {d : FieldValidation} {ty : Option String} {key : String}
    (h : d ∈ typeBlock ty key) :
    d.attr = "type" ∧ d.property = some key ∧ d.severity = some Severity.error := by
  unfold typeBlock at h
  split at h <;> simp_all

theorem mem_descriptionBlock {d : FieldValidation} {ds : Option String} {key : String}
    (h : d ∈ descriptionBlock ds key) :
    d.attr = "description" ∧ d.property = some key ∧ d.severity = some Severity.warning := by
  unfold descriptionBlock at h
  split at h <;> simp_all

theorem mem_nameBlock {d : FieldValidation} {nm : Option String} {key : String}
    (h : d ∈ nameBlock nm key) :
    d.attr = "name" ∧ d.property = some key ∧ d.severity = some Severity.error := by
  unfold nameBlock at h
  split at h <;> simp_all

theorem mem_defaultBlock {d : FieldValidation} {df : DefaultVal} {ty : Option String}
    {key : String} (h : d ∈ defaultBlock df ty key) :
    d = ⟨"Field default is required", "default", some key, some Severity.warning⟩ ∧
      df = DefaultVal.dUndefined ∧ ty ≠ some "array" := by
  unfold defaultBlock at h
  split at h <;> simp_all

theorem mem_requiredBlock {d : FieldValidation} {r : Rules} {key : String}
    (h : d ∈ requiredBlock r key) :
    d = ⟨"Field rules.required is required", "rules.required", some key, some Severity.error⟩ ∧
      r.required = ReqVal.rOther := by
  unfold requiredBlock at h
  split at h <;> simp_all

theorem mem_contentGenericBlock {d : FieldValidation} {r : Rules} {key : String}
    (h : d ∈ contentGenericBlock r key) :
    d.attr = "rules.content.min" ∧ d.property = some key ∧
      d.severity = some Severity.warning := by
  unfold contentGenericBlock at h
  split at h
  · simp_all
  · rw [List.mem_append] at h
    rcases h with h | h <;> (split at h <;> simp_all)

theorem mem_textBlock {d : FieldValidation} {ty : Option String} {r : Rules} {key : String}
    (h : d ∈ textBlock ty r key) :
    d.attr = "rules.content" ∧ d.property = some key ∧ d.severity = some Severity.error := by
  unfold textBlock at h
  split at h <;> simp_all

theorem mem_arrayContentBlock {d : FieldValidation} {r : Rules} {key : String}
    (h : d ∈ arrayContentBlock r key) :
    d.property = some key ∧ d.severity = some Severity.error ∧
      (d.attr = "rules.content" ∨ d.attr = "rules.content.min" ∨
        d.attr = "rules.content.max") := by
  unfold arrayContentBlock at h
  split at h
  · simp_all
  · rw [List.mem_append] at h
    rcases h with h | h <;>
      (split at h <;> first | simp_all | (split at h <;> simp_all))

theorem mem_itemsTypeBlock {d : FieldValidation} {ity : Option String} {key : String}
    (h : d ∈ itemsTypeBlock ity key) :
    d.attr = "items.type" ∧ d.property = some key ∧ d.severity = some Severity.error := by
  unfold itemsTypeBlock at h
  split at h <;> simp_all

theorem mem_linkBlock {d : FieldValidation} {ty : Option String} {df : DefaultVal}
    {key : String} (h : d ∈ linkBlock ty df key) :
    d.property = some key ∧ d.severity = some Severity.error ∧
      (d.attr = "default" ∨ d.attr = "image.default.url" ∨ d.attr = "link.default.text") := by
  unfold linkBlock at h
  split at h
  · split at h
    · rw [List.mem_append] at h
      rcases h with h | h <;> (split at h <;> simp_all)
    · simp_all
  · simp_all

theorem mem_buttonBlock {d : FieldValidation} {ty : Option String} {df : DefaultVal}
    {key : String} (h : d ∈ buttonBlock ty df key) :
    d.property = some key ∧ d.severity = some Severity.error ∧
      (d.attr = "default" ∨ d.attr = "image.default.url" ∨ d.attr = "link.default.label") := by
  unfold buttonBlock at h
  split at h
  · split at h
    · rw [List.mem_append] at h
      rcases h with h | h <;> (split at h <;> simp_all)
    · simp_all
  · simp_all

theorem mem_dimensionsBlock {d : FieldValidation} {r : Rules} {key : String}
    (h : d ∈ dimensionsBlock r key) :
    d.property = some key ∧ d.severity = some Severity.error ∧
      (d.attr = "rules.dimensions" ∨ d.attr = "rules.dimensions.min" ∨
        d.attr = "rules.dimensions.width" ∨ d.attr = "rules.dimensions.height") := by
  unfold dimensionsBlock at h
  split at h
  · simp_all
  · split at h
    · simp_all
    · rw [List.mem_append] at h
      rcases h with h | h <;> (split at h <;> simp_all)

theorem mem_imageBlock {d : FieldValidation} {ty : Option String} {df : DefaultVal}
    {r : Rules} {key : String} (h : d ∈ imageBlock ty df r key) :
    d.property = some key ∧ d.severity = some Severity.error ∧
      (d.attr = "default" ∨ d.attr = "image.default.src" ∨ d.attr = "image.default.alt" ∨
        d.attr = "rules.dimensions" ∨ d.attr = "rules.dimensions.min" ∨
        d.attr = "rules.dimensions.width" ∨ d.attr = "rules.dimensions.height") := by
  unfold imageBlock at h
  split at h
  · rw [List.mem_append] at h
    rcases h with h | h
    · split at h
      · rw [List.mem_append] at h
        rcases h with h | h <;> (split at h <;> simp_all)
      · simp_all
    · have := mem_dimensionsBlock h
      tauto
  · simp_all

/-! ### A mutual induction principle following the recursion of the
validator -/

theorem propertyRecursion
    (motive1 : PropertyDefinition → Prop)
    (motive2 : List (String × PropertyDefinition) → Prop)
    (h1 : ∀ ty nm ds df rl it,
        (∀ ity ps, it = some (ity, some ps) → motive2 ps) →
        motive1 (.mk ty nm ds df rl it))
    (h2 : motive2 [])
    (h3 : ∀ k q rest, motive1 q → motive2 rest → motive2 ((k, q) :: rest)) :
    (∀ p, motive1 p) ∧ (∀ ps, motive2 ps) := by
  have key : ∀ n : ℕ, (∀ p, sizeOf p ≤ n → motive1 p) ∧
      (∀ ps : List (String × PropertyDefinition), sizeOf ps ≤ n → motive2 ps) := by
    intro n
    induction n with
    | zero =>
      constructor
      · intro p hp; cases p; simp at hp
      · intro ps hps
        cases ps with
        | nil => simp at hps
        | cons hd tl => simp at hps
    | succ n ih =>
      constructor
      · intro p hp
        cases p with
        | mk ty nm ds df rl it =>
          apply h1
          intro ity ps hit
          subst hit
          apply ih.2
          have hlt : sizeOf ps <
              sizeOf (PropertyDefinition.mk ty nm ds df rl (some (ity, some ps))) := by
            simp; omega
          omega
      · intro ps hps
        cases ps with
        | nil => exact h2
        | cons hd rest =>
          obtain ⟨k, q⟩ := hd
          have hq : sizeOf q < sizeOf ((k, q) :: rest) := by simp; omega
          have hr : sizeOf rest < sizeOf ((k, q) :: rest) := by simp
          exact h3 k q rest (ih.1 q (by omega)) (ih.2 rest (by omega))
  exact ⟨fun p => (key (sizeOf p)).1 p le_rfl, fun ps => (key (sizeOf ps)).2 ps le_rfl⟩


/-- Exhaustive case analysis of one level of `validateField`: a diagnostic
comes from one of the blocks (with the facts forcing that block to run) or
from the recursion into `items.properties`. -/
theorem validateField_cases {ty nm ds : Option String} {df : DefaultVal} {rl : Option Rules}
    {it : Option (Option String × Option (List (String × PropertyDefinition)))}
    {key : String} {d : FieldValidation}
    (hd : d ∈ validateField (.mk ty nm ds df rl it) key) :
    d ∈ typeBlock ty key ∨
    d ∈ descriptionBlock ds key ∨
    d ∈ nameBlock nm key ∨
    d ∈ defaultBlock df ty key ∨
    (rl = none ∧ d = ⟨"Field rules are required", "rules", some key, some Severity.warning⟩) ∨
    (∃ r, rl = some r ∧
      (d ∈ requiredBlock r key ∨
       d ∈ contentGenericBlock r key ∨
       d ∈ textBlock ty r key ∨
       (ty = some "array" ∧
         (d ∈ arrayContentBlock r key ∨
          (it = none ∧
            d = ⟨"Items are required for array fields", "items", some key, some Severity.error⟩) ∨
          (∃ ity iprops, it = some (ity, iprops) ∧ d ∈ itemsTypeBlock ity key) ∨
          (∃ ity, it = some (ity, none) ∧
            d = ⟨"Properties are required for array fields", "items.properties", some key,
                 some Severity.error⟩) ∨
          (∃ ity ps, it = some (ity, some ps) ∧ d ∈ validateProps ps))) ∨
       d ∈ linkBlock ty df key ∨
       d ∈ buttonBlock ty df key ∨
       d ∈ imageBlock ty df r key)) := by
  cases rl with
  | none =>
    rw [validateField.eq_1] at hd
    simp only [List.mem_append, List.mem_singleton, or_assoc] at hd
    rcases hd with h | h | h | h | h
    · exact Or.inl h
    · exact Or.inr (Or.inl h)
    · exact Or.inr (Or.inr (Or.inl h))
    · exact Or.inr (Or.inr (Or.inr (Or.inl h)))
    · exact Or.inr (Or.inr (Or.inr (Or.inr (Or.inl ⟨rfl, h⟩))))
  | some r =>
    cases it with
    | none =>
      rw [validateField.eq_2] at hd
      simp only [List.mem_append, List.mem_singleton, or_assoc] at hd
      rcases hd with h | h | h | h | h | h | h | h | h | h | h
      · exact Or.inl h
      · exact Or.inr (Or.inl h)
      · exact Or.inr (Or.inr (Or.inl h))
      · exact Or.inr (Or.inr (Or.inr (Or.inl h)))
      · exact Or.inr (Or.inr (Or.inr (Or.inr (Or.inr ⟨r, rfl, Or.inl h⟩))))
      · exact Or.inr (Or.inr (Or.inr (Or.inr (Or.inr ⟨r, rfl, Or.inr (Or.inl h)⟩))))
      · exact Or.inr (Or.inr (Or.inr (Or.inr (Or.inr ⟨r, rfl, Or.inr (Or.inr (Or.inl h))⟩))))
      · split at h
        · rename_i harr
          simp only [List.mem_append, List.mem_singleton] at h
          rcases h with h | h
          · exact Or.inr (Or.inr (Or.inr (Or.inr (Or.inr
              ⟨r, rfl, Or.inr (Or.inr (Or.inr (Or.inl ⟨harr, Or.inl h⟩)))⟩))))
          · exact Or.inr (Or.inr (Or.inr (Or.inr (Or.inr
              ⟨r, rfl, Or.inr (Or.inr (Or.inr (Or.inl ⟨harr, Or.inr (Or.inl ⟨rfl, h⟩)⟩)))⟩))))
        · simp at h
      · exact Or.inr (Or.inr (Or.inr (Or.inr (Or.inr
          ⟨r, rfl, Or.inr (Or.inr (Or.inr (Or.inr (Or.inl h))))⟩))))
      · exact Or.inr (Or.inr (Or.inr (Or.inr (Or.inr
          ⟨r, rfl, Or.inr (Or.inr (Or.inr (Or.inr (Or.inr (Or.inl h)))))⟩))))
      · exact Or.inr (Or.inr (Or.inr (Or.inr (Or.inr
          ⟨r, rfl, Or.inr (Or.inr (Or.inr (Or.inr (Or.inr (Or.inr h)))))⟩))))
    | some itv =>
      obtain ⟨ity, iprops⟩ := itv
      cases iprops with
      | none =>
        rw [validateField.eq_3] at hd
        simp only [List.mem_append, List.mem_singleton, or_assoc] at hd
        rcases hd with h | h | h | h | h | h | h | h | h | h | h
        · exact Or.inl h
        · exact Or.inr (Or.inl h)
        · exact Or.inr (Or.inr (Or.inl h))
        · exact Or.inr (Or.inr (Or.inr (Or.inl h)))
        · exact Or.inr (Or.inr (Or.inr (Or.inr (Or.inr ⟨r, rfl, Or.inl h⟩))))
        · exact Or.inr (Or.inr (Or.inr (Or.inr (Or.inr ⟨r, rfl, Or.inr (Or.inl h)⟩))))
        · exact Or.inr (Or.inr (Or.inr (Or.inr (Or.inr ⟨r, rfl, Or.inr (Or.inr (Or.inl h))⟩))))
        · split at h
          · rename_i harr
            simp only [List.mem_append, List.mem_singleton, or_assoc] at h
            rcases h with h | h | h
            · exact Or.inr (Or.inr (Or.inr (Or.inr (Or.inr
                ⟨r, rfl, Or.inr (Or.inr (Or.inr (Or.inl ⟨harr, Or.inl h⟩)))⟩))))
            · exact Or.inr (Or.inr (Or.inr (Or.inr (Or.inr
                ⟨r, rfl, Or.inr (Or.inr (Or.inr (Or.inl ⟨harr,
                  Or.inr (Or.inr (Or.inl ⟨ity, none, rfl, h⟩))⟩)))⟩))))
            · exact Or.inr (Or.inr (Or.inr (Or.inr (Or.inr
                ⟨r, rfl, Or.inr (Or.inr (Or.inr (Or.inl ⟨harr,
                  Or.inr (Or.inr (Or.inr (Or.inl ⟨ity, rfl, h⟩)))⟩)))⟩))))
          · simp at h
        · exact Or.inr (Or.inr (Or.inr (Or.inr (Or.inr
            ⟨r, rfl, Or.inr (Or.inr (Or.inr (Or.inr (Or.inl h))))⟩))))
        · exact Or.inr (Or.inr (Or.inr (Or.inr (Or.inr
            ⟨r, rfl, Or.inr (Or.inr (Or.inr (Or.inr (Or.inr (Or.inl h)))))⟩))))
        · exact Or.inr (Or.inr (Or.inr (Or.inr (Or.inr
            ⟨r, rfl, Or.inr (Or.inr (Or.inr (Or.inr (Or.inr (Or.inr h)))))⟩))))
      | some ps =>
        rw [validateField.eq_4] at hd
        simp only [List.mem_append, List.mem_singleton, or_assoc] at hd
        rcases hd with h | h | h | h | h | h | h | h | h | h | h
        · exact Or.inl h
        · exact Or.inr (Or.inl h)
        · exact Or.inr (Or.inr (Or.inl h))
        · exact Or.inr (Or.inr (Or.inr (Or.inl h)))
        · exact Or.inr (Or.inr (Or.inr (Or.inr (Or.inr ⟨r, rfl, Or.inl h⟩))))
        · exact Or.inr (Or.inr (Or.inr (Or.inr (Or.inr ⟨r, rfl, Or.inr (Or.inl h)⟩))))
        · exact Or.inr (Or.inr (Or.inr (Or.inr (Or.inr ⟨r, rfl, Or.inr (Or.inr (Or.inl h))⟩))))
        · split at h
          · rename_i harr
            simp only [List.mem_append, List.mem_singleton, or_assoc] at h
            rcases h with h | h | h
            · exact Or.inr (Or.inr (Or.inr (Or.inr (Or.inr
                ⟨r, rfl, Or.inr (Or.inr (Or.inr (Or.inl ⟨harr, Or.inl h⟩)))⟩))))
            · exact Or.inr (Or.inr (Or.inr (Or.inr (Or.inr
                ⟨r, rfl, Or.inr (Or.inr (Or.inr (Or.inl ⟨harr,
                  Or.inr (Or.inr (Or.inl ⟨ity, some ps, rfl, h⟩))⟩)))⟩))))
            · exact Or.inr (Or.inr (Or.inr (Or.inr (Or.inr
                ⟨r, rfl, Or.inr (Or.inr (Or.inr (Or.inl ⟨harr,
                  Or.inr (Or.inr (Or.inr (Or.inr ⟨ity, ps, rfl, h⟩)))⟩)))⟩))))
          · simp at h
        · exact Or.inr (Or.inr (Or.inr (Or.inr (Or.inr
            ⟨r, rfl, Or.inr (Or.inr (Or.inr (Or.inr (Or.inl h))))⟩))))
        · exact Or.inr (Or.inr (Or.inr (Or.inr (Or.inr
            ⟨r, rfl, Or.inr (Or.inr (Or.inr (Or.inr (Or.inr (Or.inl h)))))⟩))))
        · exact Or.inr (Or.inr (Or.inr (Or.inr (Or.inr
            ⟨r, rfl, Or.inr (Or.inr (Or.inr (Or.inr (Or.inr (Or.inr h)))))⟩))))

/-- Diagnostics produced for an entry of a property mapping are among the
diagnostics of the whole mapping. -/
theorem mem_validateProps_of_entry {ps : List (String × PropertyDefinition)}
    {k : String} {q : PropertyDefinition} {d : FieldValidation}
    (hin : (k, q) ∈ ps) (hd : d ∈ validateField q k) : d ∈ validateProps ps := by
  induction ps with
  | nil => simp at hin
  | cons hd2 rest ih =>
    obtain ⟨k2, q2⟩ := hd2
    rw [validateProps.eq_2, List.mem_append]
    rcases List.mem_cons.mp hin with h | h
    · left; obtain ⟨h1, h2⟩ := Prod.mk.injEq .. ▸ h
      cases h; exact hd
    · right; exact ih h

/-- Attribution: every diagnostic of `validateField p key` carries either
`key` or a key occurring somewhere below `p` in its `property` slot. -/
theorem validateField_attribution :
    (∀ p key d, d ∈ validateField p key →
       d.property = some key ∨ ∃ k ∈ keysBelow p, d.property = some k) ∧
    (∀ ps : List (String × PropertyDefinition), ∀ d ∈ validateProps ps,
       ∃ k ∈ keysBelowProps ps, d.property = some k) := by
  refine propertyRecursion
    (fun p => ∀ key d, d ∈ validateField p key →
       d.property = some key ∨ ∃ k ∈ keysBelow p, d.property = some k)
    (fun ps => ∀ d ∈ validateProps ps, ∃ k ∈ keysBelowProps ps, d.property = some k)
    ?_ ?_ ?_
  · intro ty nm ds df rl it IH key d hd
    rcases validateField_cases hd with
      h | h | h | h | ⟨_, h⟩ |
      ⟨r, _, h | h | h | ⟨_, h | ⟨_, h⟩ | ⟨ity, iprops, _, h⟩ | ⟨ity, _, h⟩ |
        ⟨ity, ps, hit, h⟩⟩ | h | h | h⟩
    · exact Or.inl (mem_typeBlock h).2.1
    · exact Or.inl (mem_descriptionBlock h).2.1
    · exact Or.inl (mem_nameBlock h).2.1
    · obtain ⟨hh, -, -⟩ := mem_defaultBlock h; subst hh; exact Or.inl rfl
    · subst h; exact Or.inl rfl
    · obtain ⟨hh, -⟩ := mem_requiredBlock h; subst hh; exact Or.inl rfl
    · exact Or.inl (mem_contentGenericBlock h).2.1
    · exact Or.inl (mem_textBlock h).2.1
    · exact Or.inl (mem_arrayContentBlock h).1
    · subst h; exact Or.inl rfl
    · exact Or.inl (mem_itemsTypeBlock h).2.1
    · subst h; exact Or.inl rfl
    · obtain ⟨k2, hk2, h2⟩ := IH ity ps hit d h
      refine Or.inr ⟨k2, ?_, h2⟩
      subst hit
      simpa [keysBelow] using hk2
    · exact Or.inl (mem_linkBlock h).1
    · exact Or.inl (mem_buttonBlock h).1
    · exact Or.inl (mem_imageBlock h).1
  · intro d hd; simp [validateProps] at hd
  · intro k q rest IHq IHrest d hd
    rw [validateProps.eq_2, List.mem_append] at hd
    rcases hd with h | h
    · rcases IHq k d h with h1 | ⟨k2, hk2, h2⟩
      · exact ⟨k, by simp [keysBelowProps], h1⟩
      · exact ⟨k2, by simp only [keysBelowProps, List.mem_cons, List.mem_append]; tauto, h2⟩
    · obtain ⟨k2, hk2, h2⟩ := IHrest d h
      exact ⟨k2, by simp only [keysBelowProps, List.mem_cons, List.mem_append]; tauto, h2⟩

/-! ### Inclusion of the blocks into the full validator output -/

theorem mem_validateField_of_defaultBlock {ty nm ds : Option String} {df : DefaultVal}
    {rl : Option Rules}
    {it : Option (Option String × Option (List (String × PropertyDefinition)))}
    {key : String} {d : FieldValidation} (h : d ∈ defaultBlock df ty key) :
    d ∈ validateField (.mk ty nm ds df rl it) key := by
  cases rl with
  | none =>
    rw [validateField.eq_1]; simp only [List.mem_append]; tauto
  | some r =>
    cases it with
    | none => rw [validateField.eq_2]; simp only [List.mem_append]; tauto
    | some itv =>
      obtain ⟨ity, ip⟩ := itv
      cases ip with
      | none => rw [validateField.eq_3]; simp only [List.mem_append]; tauto
      | some ps => rw [validateField.eq_4]; simp only [List.mem_append]; tauto

theorem mem_validateField_of_requiredBlock {ty nm ds : Option String} {df : DefaultVal}
    {it : Option (Option String × Option (List (String × PropertyDefinition)))}
    {key : String} {r : Rules} {d : FieldValidation} (h : d ∈ requiredBlock r key) :
    d ∈ validateField (.mk ty nm ds df (some r) it) key := by
  cases it with
  | none => rw [validateField.eq_2]; simp only [List.mem_append]; tauto
  | some itv =>
    obtain ⟨ity, ip⟩ := itv
    cases ip with
    | none => rw [validateField.eq_3]; simp only [List.mem_append]; tauto
    | some ps => rw [validateField.eq_4]; simp only [List.mem_append]; tauto

theorem mem_validateField_of_contentGenericBlock {ty nm ds : Option String} {df : DefaultVal}
    {it : Option (Option String × Option (List (String × PropertyDefinition)))}
    {key : String} {r : Rules} {d : FieldValidation} (h : d ∈ contentGenericBlock r key) :
    d ∈ validateField (.mk ty nm ds df (some r) it) key := by
  cases it with
  | none => rw [validateField.eq_2]; simp only [List.mem_append]; tauto
  | some itv =>
    obtain ⟨ity, ip⟩ := itv
    cases ip with
    | none => rw [validateField.eq_3]; simp only [List.mem_append]; tauto
    | some ps => rw [validateField.eq_4]; simp only [List.mem_append]; tauto

theorem mem_validateField_of_arrayContentBlock {nm ds : Option String} {df : DefaultVal}
    {it : Option (Option String × Option (List (String × PropertyDefinition)))}
    {key : String} {r : Rules} {d : FieldValidation} (h : d ∈ arrayContentBlock r key) :
    d ∈ validateField (.mk (some "array") nm ds df (some r) it) key := by
  cases it with
  | none =>
    rw [validateField.eq_2]
    apply List.mem_append_right
    apply List.mem_append_left
    apply List.mem_append_left
    apply List.mem_append_left
    apply List.mem_append_right
    rw [if_pos rfl]
    exact List.mem_append_left _ h
  | some itv =>
    obtain ⟨ity, ip⟩ := itv
    cases ip with
    | none =>
      rw [validateField.eq_3]
      apply List.mem_append_right
      apply List.mem_append_left
      apply List.mem_append_left
      apply List.mem_append_left
      apply List.mem_append_right
      rw [if_pos rfl]
      exact List.mem_append_left _ h
    | some ps =>
      rw [validateField.eq_4]
      apply List.mem_append_right
      apply List.mem_append_left
      apply List.mem_append_left
      apply List.mem_append_left
      apply List.mem_append_right
      rw [if_pos rfl]
      exact List.mem_append_left _ h

theorem mem_validateField_of_linkBlock {ty nm ds : Option String} {df : DefaultVal}
    {it : Option (Option String × Option (List (String × PropertyDefinition)))}
    {key : String} {r : Rules} {d : FieldValidation} (h : d ∈ linkBlock ty df key) :
    d ∈ validateField (.mk ty nm ds df (some r) it) key := by
  cases it with
  | none => rw [validateField.eq_2]; simp only [List.mem_append]; tauto
  | some itv =>
    obtain ⟨ity, ip⟩ := itv
    cases ip with
    | none => rw [validateField.eq_3]; simp only [List.mem_append]; tauto
    | some ps => rw [validateField.eq_4]; simp only [List.mem_append]; tauto

theorem mem_validateField_of_buttonBlock {ty nm ds : Option String} {df : DefaultVal}
    {it : Option (Option String × Option (List (String × PropertyDefinition)))}
    {key : String} {r : Rules} {d : FieldValidation} (h : d ∈ buttonBlock ty df key) :
    d ∈ validateField (.mk ty nm ds df (some r) it) key := by
  cases it with
  | none => rw [validateField.eq_2]; simp only [List.mem_append]; tauto
  | some itv =>
    obtain ⟨ity, ip⟩ := itv
    cases ip with
    | none => rw [validateField.eq_3]; simp only [List.mem_append]; tauto
    | some ps => rw [validateField.eq_4]; simp only [List.mem_append]; tauto

theorem mem_validateField_of_imageBlock {ty nm ds : Option String} {df : DefaultVal}
    {it : Option (Option String × Option (List (String × PropertyDefinition)))}
    {key : String} {r : Rules} {d : FieldValidation} (h : d ∈ imageBlock ty df r key) :
    d ∈ validateField (.mk ty nm ds df (some r) it) key := by
  cases it with
  | none => rw [validateField.eq_2]; simp only [List.mem_append]; tauto
  | some itv =>
    obtain ⟨ity, ip⟩ := itv
    cases ip with
    | none => rw [validateField.eq_3]; simp only [List.mem_append]; tauto
    | some ps => rw [validateField.eq_4]; simp only [List.mem_append]; tauto

theorem mem_validateField_of_validateProps {nm ds ity : Option String} {df : DefaultVal}
    {key : String} {r : Rules} {ps : List (String × PropertyDefinition)}
    {d : FieldValidation} (h : d ∈ validateProps ps) :
    d ∈ validateField (.mk (some "array") nm ds df (some r) (some (ity, some ps))) key := by
  rw [validateField.eq_4]
  apply List.mem_append_right
  apply List.mem_append_left
  apply List.mem_append_left
  apply List.mem_append_left
  apply List.mem_append_right
  rw [if_pos rfl]
  exact List.mem_append_right _ (List.mem_append_right _ h)

/-! ### Claims -/

/-- C5: for every array field with a `rules.content` object, setting
`rules.content.min` to `0` and setting it to `-1` each yield an error
diagnostic with attribute `rules.content.min`: zero is treated the same as
absent/invalid (it takes the falsy branch and its message), never as a valid
minimum. -/
theorem c5_array_min_zero_and_negative_error (p : PropertyDefinition) (key : String)
    (r : Rules) (c : ContentRules)
    (hty : p.type = some "array") (hrl : p.rules = some r) (hc : r.content = some c) :
    (c.min = some 0 →
      (⟨"Array fields must have a minimum content length", "rules.content.min", some key,
        some Severity.error⟩ : FieldValidation) ∈ validateField p key) ∧
    (c.min = some (-1) →
      (⟨"Array fields must have a maximum content length", "rules.content.min", some key,
        some Severity.error⟩ : FieldValidation) ∈ validateField p key) := by
  cases p with
  | mk ty nm ds df rl it =>
    simp only [PropertyDefinition.type] at hty
    simp only [PropertyDefinition.rules] at hrl
    subst hty; subst hrl
    constructor
    · intro hmin
      apply mem_validateField_of_arrayContentBlock
      unfold arrayContentBlock
      rw [hc]
      simp [hmin, numTruthy]
    · intro hmin
      apply mem_validateField_of_arrayContentBlock
      unfold arrayContentBlock
      rw [hc]
      simp [hmin, numTruthy]

/-- Witness for C5 at concrete inputs: `pArrayMinZero` has `min = 0` and
`pArrayMinNeg` has `min = -1`; both produce the error. -/
theorem c5_witness :
    ((⟨"Array fields must have a minimum content length", "rules.content.min", some "slides",
      some Severity.error⟩ : FieldValidation) ∈ validateField pArrayMinZero "slides") ∧
    ((⟨"Array fields must have a maximum content length", "rules.content.min", some "slides",
      some Severity.error⟩ : FieldValidation) ∈ validateField pArrayMinNeg "slides") :=
  ⟨(c5_array_min_zero_and_negative_error pArrayMinZero "slides" _ _ rfl rfl rfl).1 rfl,
   (c5_array_min_zero_and_negative_error pArrayMinNeg "slides" _ _ rfl rfl rfl).2 rfl⟩

/-- C2: for every property with a `rules` object, the validator emits an
error diagnostic with attribute `rules.required` for this property exactly
when `rules.required` is neither the boolean `true` nor the boolean `false`
(the `key ∉ keysBelow p` hypothesis rules out an unrelated nested field that
happens to reuse the same key); in particular `rules.required = false`
receives no such diagnostic. -/
theorem c2_required_error_iff (p : PropertyDefinition) (key : String) (r : Rules)
    (hrl : p.rules = some r) (halias : key ∉ keysBelow p) :
    (∃ d ∈ validateField p key, d.attr = "rules.required" ∧ d.property = some key ∧
      d.severity = some Severity.error) ↔ r.required = ReqVal.rOther := by
  cases p with
  | mk ty nm ds df rl it =>
    simp only [PropertyDefinition.rules] at hrl
    subst hrl
    constructor
    · rintro ⟨d, hd, hattr, hprop, hsev⟩
      rcases validateField_cases hd with
        h | h | h | h | ⟨hno, -⟩ |
        ⟨r2, hr2, h | h | h |
          ⟨harr, h | ⟨-, h⟩ | ⟨ity, iprops, hit, h⟩ | ⟨ity, hit, h⟩ | ⟨ity, ps, hit, h⟩⟩ |
          h | h | h⟩
      · have hx := (mem_typeBlock h).1; rw [hattr] at hx; exact absurd hx (by decide)
      · have hx := (mem_descriptionBlock h).1; rw [hattr] at hx; exact absurd hx (by decide)
      · have hx := (mem_nameBlock h).1; rw [hattr] at hx; exact absurd hx (by decide)
      · obtain ⟨hx, -, -⟩ := mem_defaultBlock h; subst hx; simp at hattr
      · simp at hno
      · injection hr2 with hr2; subst hr2; exact (mem_requiredBlock h).2
      · have hx := (mem_contentGenericBlock h).1; rw [hattr] at hx; exact absurd hx (by decide)
      · have hx := (mem_textBlock h).1; rw [hattr] at hx; exact absurd hx (by decide)
      · have hx := (mem_arrayContentBlock h).2.2; rw [hattr] at hx
        rcases hx with hx | hx | hx <;> exact absurd hx (by decide)
      · subst h; simp at hattr
      · have hx := (mem_itemsTypeBlock h).1; rw [hattr] at hx; exact absurd hx (by decide)
      · subst h; simp at hattr
      · subst hit
        obtain ⟨k2, hk2, h2⟩ := validateField_attribution.2 ps d h
        rw [hprop] at h2
        injection h2 with h2
        subst h2
        exact absurd (by simpa [keysBelow] using hk2) halias
      · have hx := (mem_linkBlock h).2.2; rw [hattr] at hx
        rcases hx with hx | hx | hx <;> exact absurd hx (by decide)
      · have hx := (mem_buttonBlock h).2.2; rw [hattr] at hx
        rcases hx with hx | hx | hx <;> exact absurd hx (by decide)
      · have hx := (mem_imageBlock h).2.2; rw [hattr] at hx
        rcases hx with hx | hx | hx | hx | hx | hx | hx <;> exact absurd hx (by decide)
    · intro hreq
      refine ⟨⟨"Field rules.required is required", "rules.required", some key,
        some Severity.error⟩, ?_, rfl, rfl, rfl⟩
      exact mem_validateField_of_requiredBlock (by simp [requiredBlock, hreq])

/-- Witness for C2: `pBadRequired` has a non-boolean `rules.required` and
receives the diagnostic; the iff is instantiated at it. -/
theorem c2_witness :
    (∃ d ∈ validateField pBadRequired "intro", d.attr = "rules.required" ∧
      d.property = some "intro" ∧ d.severity = some Severity.error) :=
  (c2_required_error_iff pBadRequired "intro" _ rfl (by decide)).mpr rfl

/-- C3: for every property whose `default` is absent, the validator emits a
warning diagnostic with attribute `default` if and only if the property's
type is not `"array"` (under the same key-aliasing proviso as C2): an array
field with no default receives no default-missing warning. -/
theorem c3_default_warning_iff (p : PropertyDefinition) (key : String)
    (hdf : p.dflt = DefaultVal.dUndefined) (halias : key ∉ keysBelow p) :
    (∃ d ∈ validateField p key, d.attr = "default" ∧ d.severity = some Severity.warning ∧
      d.property = some key) ↔ p.type ≠ some "array" := by
  cases p with
  | mk ty nm ds df rl it =>
    simp only [PropertyDefinition.dflt] at hdf
    simp only [PropertyDefinition.type]
    subst hdf
    constructor
    · rintro ⟨d, hd, hattr, hsev, hprop⟩
      rcases validateField_cases hd with
        h | h | h | h | ⟨-, h⟩ |
        ⟨r2, hr2, h | h | h |
          ⟨harr, h | ⟨-, h⟩ | ⟨ity, iprops, hit, h⟩ | ⟨ity, hit, h⟩ | ⟨ity, ps, hit, h⟩⟩ |
          h | h | h⟩
      · have hx := (mem_typeBlock h).1; rw [hattr] at hx; exact absurd hx (by decide)
      · have hx := (mem_descriptionBlock h).1; rw [hattr] at hx; exact absurd hx (by decide)
      · have hx := (mem_nameBlock h).1; rw [hattr] at hx; exact absurd hx (by decide)
      · exact (mem_defaultBlock h).2.2
      · subst h; simp at hattr
      · have hx := (mem_requiredBlock h).1
        subst hx; simp at hattr
      · have hx := (mem_contentGenericBlock h).1; rw [hattr] at hx; exact absurd hx (by decide)
      · have hx := (mem_textBlock h).1; rw [hattr] at hx; exact absurd hx (by decide)
      · have hx := (mem_arrayContentBlock h).2.1; rw [hsev] at hx
        exact absurd hx (by decide)
      · subst h; simp at hattr
      · have hx := (mem_itemsTypeBlock h).1; rw [hattr] at hx; exact absurd hx (by decide)
      · subst h; simp at hattr
      · subst hit
        obtain ⟨k2, hk2, h2⟩ := validateField_attribution.2 ps d h
        rw [hprop] at h2
        injection h2 with h2
        subst h2
        exact absurd (by simpa [keysBelow] using hk2) halias
      · have hx := (mem_linkBlock h).2.1; rw [hsev] at hx; exact absurd hx (by decide)
      · have hx := (mem_buttonBlock h).2.1; rw [hsev] at hx; exact absurd hx (by decide)
      · have hx := (mem_imageBlock h).2.1; rw [hsev] at hx; exact absurd hx (by decide)
    · intro hty
      refine ⟨⟨"Field default is required", "default", some key, some Severity.warning⟩,
        ?_, rfl, rfl, rfl⟩
      exact mem_validateField_of_defaultBlock (by simp [defaultBlock, hty])

/-- Witness for C3: `pNoDefault` is a `text` field with no default and
receives the warning. -/
theorem c3_witness :
    ∃ d ∈ validateField pNoDefault "intro", d.attr = "default" ∧
      d.severity = some Severity.warning ∧ d.property = some "intro" :=
  (c3_default_warning_iff pNoDefault "intro" rfl (by decide)).mpr (by decide)

theorem mem_validateField_of_typeBlock {ty nm ds : Option String} {df : DefaultVal}
    {rl : Option Rules}
    {it : Option (Option String × Option (List (String × PropertyDefinition)))}
    {key : String} {d : FieldValidation} (h : d ∈ typeBlock ty key) :
    d ∈ validateField (.mk ty nm ds df rl it) key := by
  cases rl with
  | none =>
    rw [validateField.eq_1]; simp only [List.mem_append]; tauto
  | some r =>
    cases it with
    | none => rw [validateField.eq_2]; simp only [List.mem_append]; tauto
    | some itv =>
      obtain ⟨ity, ip⟩ := itv
      cases ip with
      | none => rw [validateField.eq_3]; simp only [List.mem_append]; tauto
      | some ps => rw [validateField.eq_4]; simp only [List.mem_append]; tauto

/-- C4: for every array field whose `items.properties` holds a nested field
with no `type`, the result contains the type-required error under the nested
field's own key, and the whole result is a flat concatenation: the
diagnostics of the `items.properties` entries are appended after the
array-level diagnostics (which all carry the parent key). -/
theorem c4_nested_missing_type (p : PropertyDefinition) (key nk : String)
    (q : PropertyDefinition) (r : Rules) (ity : Option String)
    (ps : List (String × PropertyDefinition))
    (hty : p.type = some "array") (hrl : p.rules = some r)
    (hit : p.items = some (ity, some ps)) (hin : (nk, q) ∈ ps) (hq : q.type = none) :
    ((⟨"Field type is required", "type", some nk, some Severity.error⟩ : FieldValidation)
        ∈ validateField p key) ∧
    ∃ pre, validateField p key = pre ++ validateProps ps ∧
      ∀ d ∈ pre, d.property = some key := by
  cases p with
  | mk ty nm ds df rl it =>
    simp only [PropertyDefinition.type] at hty
    simp only [PropertyDefinition.rules] at hrl
    simp only [PropertyDefinition.items] at hit
    subst hty; subst hrl; subst hit
    constructor
    · apply mem_validateField_of_validateProps
      refine mem_validateProps_of_entry hin ?_
      cases q with
      | mk qty qnm qds qdf qrl qit =>
        simp only [PropertyDefinition.type] at hq
        subst hq
        exact mem_validateField_of_typeBlock (by simp [typeBlock, strTruthy])
    · refine ⟨typeBlock (some "array") key ++ descriptionBlock ds key ++ nameBlock nm key ++
        defaultBlock df (some "array") key ++ requiredBlock r key ++
        contentGenericBlock r key ++ textBlock (some "array") r key ++
        arrayContentBlock r key ++ itemsTypeBlock ity key, ?_, ?_⟩
      · rw [validateField.eq_4, if_pos rfl]
        rw [show linkBlock (some "array") df key = [] from rfl,
            show buttonBlock (some "array") df key = [] from rfl,
            show imageBlock (some "array") df r key = [] from rfl]
        simp [List.append_assoc]
      · intro d hd
        simp only [List.mem_append, or_assoc] at hd
        rcases hd with h | h | h | h | h | h | h | h | h
        · exact (mem_typeBlock h).2.1
        · exact (mem_descriptionBlock h).2.1
        · exact (mem_nameBlock h).2.1
        · obtain ⟨hx, -, -⟩ := mem_defaultBlock h; subst hx; rfl
        · obtain ⟨hx, -⟩ := mem_requiredBlock h; subst hx; rfl
        · exact (mem_contentGenericBlock h).2.1
        · exact (mem_textBlock h).2.1
        · exact (mem_arrayContentBlock h).1
        · exact (mem_itemsTypeBlock h).2.1

/-- Witness for C4: `pArrayBadNested` holds the typeless nested field `badfield`. -/
theorem c4_witness :
    ((⟨"Field type is required", "type", some "badfield", some Severity.error⟩ : FieldValidation)
        ∈ validateField pArrayBadNested "slides") ∧
    ∃ pre, validateField pArrayBadNested "slides" =
        pre ++ validateProps [("badfield", pBadNested)] ∧
      ∀ d ∈ pre, d.property = some "slides" :=
  c4_nested_missing_type pArrayBadNested "slides" "badfield" pBadNested _ _ _
    rfl rfl rfl (List.mem_singleton.mpr rfl) rfl

/-- When `rules` is present, the validator output decomposes into the block
concatenation with some items part inside the array branch. -/
theorem validateField_rules_decomp (ty nm ds : Option String) (df : DefaultVal) (r : Rules)
    (it : Option (Option String × Option (List (String × PropertyDefinition))))
    (key : String) :
    ∃ itemsPart, validateField (.mk ty nm ds df (some r) it) key =
      typeBlock ty key ++ descriptionBlock ds key ++ nameBlock nm key ++
      defaultBlock df ty key ++
      (requiredBlock r key ++ contentGenericBlock r key ++ textBlock ty r key ++
       (if ty = some "array" then arrayContentBlock r key ++ itemsPart else []) ++
       linkBlock ty df key ++ buttonBlock ty df key ++ imageBlock ty df r key) := by
  cases it with
  | none =>
    refine ⟨[⟨"Items are required for array fields", "items", some key, some Severity.error⟩], ?_⟩
    rw [validateField.eq_2]
  | some itv =>
    obtain ⟨ity, ip⟩ := itv
    cases ip with
    | none =>
      refine ⟨itemsTypeBlock ity key ++
        [⟨"Properties are required for array fields", "items.properties", some key,
          some Severity.error⟩], ?_⟩
      rw [validateField.eq_3]
    | some ps =>
      refine ⟨itemsTypeBlock ity key ++ validateProps ps, ?_⟩
      rw [validateField.eq_4]

/-- The min-missing warning of the generic content block only arises when
`rules.required === true`. -/
theorem mem_contentGenericBlock_min_required {d : FieldValidation} {r : Rules} {key : String}
    (h : d ∈ contentGenericBlock r key)
    (hmsg : d.message = "Content rules must have a minimum length") :
    r.required = ReqVal.rTrue := by
  unfold contentGenericBlock at h
  split at h
  · simp at h
  · rw [List.mem_append] at h
    rcases h with h | h
    · split at h
      · rename_i hcond; exact hcond.2
      · simp at h
    · split at h
      · rw [List.mem_singleton] at h
        subst h
        exact absurd hmsg (by simp)
      · simp at h

/-- C6: for every property with `rules.content` present, a missing (falsy)
`rules.content.min` produces the min-missing warning exactly when
`rules.required === true`; a missing `rules.content.max` always produces the
max-missing warning; and for an array field this generic warning appears in
the output before the array branch's max-missing error. -/
theorem c6_generic_content_checks (p : PropertyDefinition) (key : String) (r : Rules)
    (c : ContentRules) (hrl : p.rules = some r) (hc : r.content = some c) :
    (numTruthy c.min = false → key ∉ keysBelow p →
      ((∃ d ∈ validateField p key, d.message = "Content rules must have a minimum length" ∧
          d.attr = "rules.content.min" ∧ d.severity = some Severity.warning ∧
          d.property = some key) ↔ r.required = ReqVal.rTrue)) ∧
    (numTruthy c.max = false →
      (⟨"Content rules must have a maximum length", "rules.content.min", some key,
        some Severity.warning⟩ : FieldValidation) ∈ validateField p key) ∧
    (p.type = some "array" → numTruthy c.max = false →
      ∃ l1 l2 l3, validateField p key =
        l1 ++ (⟨"Content rules must have a maximum length", "rules.content.min", some key,
              some Severity.warning⟩ : FieldValidation) ::
        (l2 ++ (⟨"Content rules must have a maximum length", "rules.content.min", some key,
               some Severity.error⟩ : FieldValidation) :: l3)) := by
  cases p with
  | mk ty nm ds df rl it =>
    simp only [PropertyDefinition.rules] at hrl
    simp only [PropertyDefinition.type]
    subst hrl
    refine ⟨?_, ?_, ?_⟩
    · intro hmin halias
      constructor
      · rintro ⟨d, hd, hmsg, hattr, hsev, hprop⟩
        rcases validateField_cases hd with
          h | h | h | h | ⟨hno, -⟩ |
          ⟨r2, hr2, h | h | h |
            ⟨harr, h | ⟨-, h⟩ | ⟨ity, iprops, hit, h⟩ | ⟨ity, hit, h⟩ | ⟨ity, ps, hit, h⟩⟩ |
            h | h | h⟩
        · have hx := (mem_typeBlock h).1; rw [hattr] at hx; exact absurd hx (by decide)
        · have hx := (mem_descriptionBlock h).1; rw [hattr] at hx; exact absurd hx (by decide)
        · have hx := (mem_nameBlock h).1; rw [hattr] at hx; exact absurd hx (by decide)
        · have hx := congrArg FieldValidation.message (mem_defaultBlock h).1
          rw [hmsg] at hx; exact absurd hx (by simp)
        · simp at hno
        · have hx := congrArg FieldValidation.message (mem_requiredBlock h).1
          rw [hmsg] at hx; exact absurd hx (by simp)
        · injection hr2 with hr2; subst hr2
          exact mem_contentGenericBlock_min_required h hmsg
        · have hx := (mem_textBlock h).1; rw [hattr] at hx; exact absurd hx (by decide)
        · have hx := (mem_arrayContentBlock h).2.1; rw [hsev] at hx; exact absurd hx (by decide)
        · have hx := congrArg FieldValidation.message h
          rw [hmsg] at hx; exact absurd hx (by simp)
        · have hx := (mem_itemsTypeBlock h).1; rw [hattr] at hx; exact absurd hx (by decide)
        · have hx := congrArg FieldValidation.message h
          rw [hmsg] at hx; exact absurd hx (by simp)
        · subst hit
          obtain ⟨k2, hk2, h2⟩ := validateField_attribution.2 ps d h
          rw [hprop] at h2
          injection h2 with h2
          subst h2
          exact absurd (by simpa [keysBelow] using hk2) halias
        · have hx := (mem_linkBlock h).2.1; rw [hsev] at hx; exact absurd hx (by decide)
        · have hx := (mem_buttonBlock h).2.1; rw [hsev] at hx; exact absurd hx (by decide)
        · have hx := (mem_imageBlock h).2.1; rw [hsev] at hx; exact absurd hx (by decide)
      · intro hreq
        refine ⟨⟨"Content rules must have a minimum length", "rules.content.min", some key,
          some Severity.warning⟩, ?_, rfl, rfl, rfl, rfl⟩
        apply mem_validateField_of_contentGenericBlock
        unfold contentGenericBlock
        split
        · rename_i heq; rw [heq] at hc; cases hc
        · rename_i c2 heq
          rw [heq] at hc; injection hc with hc; subst hc
          rw [if_pos ⟨hmin, hreq⟩]
          simp
    · intro hmax
      apply mem_validateField_of_contentGenericBlock
      unfold contentGenericBlock
      split
      · rename_i heq; rw [heq] at hc; cases hc
      · rename_i c2 heq
        rw [heq] at hc; injection hc with hc; subst hc
        rw [if_pos hmax]
        exact List.mem_append_right _ (List.mem_singleton.mpr rfl)
    · intro hty hmax
      subst hty
      obtain ⟨itemsPart, hdec⟩ := validateField_rules_decomp (some "array") nm ds df r it key
      rw [hdec, if_pos rfl]
      have hcg : contentGenericBlock r key =
          (if numTruthy c.min = false ∧ r.required = ReqVal.rTrue then
            [⟨"Content rules must have a minimum length", "rules.content.min", some key,
              some Severity.warning⟩] else []) ++
          [⟨"Content rules must have a maximum length", "rules.content.min", some key,
            some Severity.warning⟩] := by
        unfold contentGenericBlock
        split
        · rename_i heq; rw [heq] at hc; cases hc
        · rename_i c2 heq
          rw [heq] at hc; injection hc with hc; subst hc
          rw [if_pos hmax]
      have hac : arrayContentBlock r key =
          (if numTruthy c.min = false then
            [⟨"Array fields must have a minimum content length", "rules.content.min", some key,
              some Severity.error⟩]
           else if c.min.getD 0 < 1 then
            [⟨"Array fields must have a maximum content length", "rules.content.min", some key,
              some Severity.error⟩]
           else []) ++
          [⟨"Content rules must have a maximum length", "rules.content.min", some key,
            some Severity.error⟩] := by
        unfold arrayContentBlock
        split
        · rename_i heq; rw [heq] at hc; cases hc
        · rename_i c2 heq
          rw [heq] at hc; injection hc with hc; subst hc
          rw [if_pos hmax]
      rw [hcg, hac]
      refine ⟨typeBlock (some "array") key ++ descriptionBlock ds key ++ nameBlock nm key ++
        defaultBlock df (some "array") key ++ requiredBlock r key ++
        (if numTruthy c.min = false ∧ r.required = ReqVal.rTrue then
          [⟨"Content rules must have a minimum length", "rules.content.min", some key,
            some Severity.warning⟩] else []),
        textBlock (some "array") r key ++
        (if numTruthy c.min = false then
          [⟨"Array fields must have a minimum content length", "rules.content.min", some key,
            some Severity.error⟩]
         else if c.min.getD 0 < 1 then
          [⟨"Array fields must have a maximum content length", "rules.content.min", some key,
            some Severity.error⟩]
         else []),
        itemsPart ++ linkBlock (some "array") df key ++ buttonBlock (some "array") df key ++
          imageBlock (some "array") df r key, ?_⟩
      simp [List.append_assoc]

/-- Witness for C6 at `pArrayNoBounds` (array, `required = true`, content
with neither bound). -/
theorem c6_witness :
    (∃ d ∈ validateField pArrayNoBounds "slides",
      d.message = "Content rules must have a minimum length" ∧
      d.attr = "rules.content.min" ∧ d.severity = some Severity.warning ∧
      d.property = some "slides") ∧
    ((⟨"Content rules must have a maximum length", "rules.content.min", some "slides",
      some Severity.warning⟩ : FieldValidation) ∈ validateField pArrayNoBounds "slides") ∧
    ∃ l1 l2 l3, validateField pArrayNoBounds "slides" =
      l1 ++ (⟨"Content rules must have a maximum length", "rules.content.min", some "slides",
            some Severity.warning⟩ : FieldValidation) ::
      (l2 ++ (⟨"Content rules must have a maximum length", "rules.content.min", some "slides",
             some Severity.error⟩ : FieldValidation) :: l3) := by
  have h := c6_generic_content_checks pArrayNoBounds "slides" _ _ rfl rfl
  exact ⟨(h.1 rfl (by decide)).mpr rfl, h.2.1 rfl, h.2.2 rfl rfl⟩

/-- Inside the array content checks, when `rules.content.max` is falsy no
diagnostic with attribute `rules.content.max` is produced (the max-absent
error is labelled `rules.content.min`). -/
theorem mem_arrayContentBlock_max_attr {d : FieldValidation} {r : Rules} {key : String}
    {c : ContentRules} (hc : r.content = some c) (hmax : numTruthy c.max = false)
    (h : d ∈ arrayContentBlock r key) : d.attr ≠ "rules.content.max" := by
  unfold arrayContentBlock at h
  split at h
  · rw [List.mem_singleton] at h; subst h; simp
  · rename_i c2 heq
    rw [heq] at hc; injection hc with hc; subst hc
    rw [List.mem_append] at h
    rcases h with h | h
    · split at h
      · rw [List.mem_singleton] at h; subst h; simp
      · split at h
        · rw [List.mem_singleton] at h; subst h; simp
        · simp at h
    · rw [if_pos hmax, List.mem_singleton] at h
      subst h; simp

/-- C9: with `rules.content` present and `rules.content.max` falsy, the
missing-maximum diagnostics (the generic warning and, for arrays, the
array-branch error) both carry attribute `rules.content.min`, and no
diagnostic for this property carries `rules.content.max`; only the
`max < 1` error (which requires a truthy max) carries `rules.content.max`. -/
theorem c9_max_missing_attr_is_min (p : PropertyDefinition) (key : String) (r : Rules)
    (c : ContentRules) (hrl : p.rules = some r) (hc : r.content = some c) :
    (numTruthy c.max = false →
      ((⟨"Content rules must have a maximum length", "rules.content.min", some key,
          some Severity.warning⟩ : FieldValidation) ∈ validateField p key) ∧
      (p.type = some "array" →
        (⟨"Content rules must have a maximum length", "rules.content.min", some key,
          some Severity.error⟩ : FieldValidation) ∈ validateField p key) ∧
      (key ∉ keysBelow p →
        ∀ d ∈ validateField p key, d.property = some key → d.attr ≠ "rules.content.max")) ∧
    (p.type = some "array" → ∀ m : Int, c.max = some m → m ≠ 0 → m < 1 →
      (⟨"Content rules maximum length must be greater than 0", "rules.content.max", some key,
        some Severity.error⟩ : FieldValidation) ∈ validateField p key) := by
  cases p with
  | mk ty nm ds df rl it =>
    simp only [PropertyDefinition.rules] at hrl
    simp only [PropertyDefinition.type]
    subst hrl
    constructor
    · intro hmax
      refine ⟨?_, ?_, ?_⟩
      · apply mem_validateField_of_contentGenericBlock
        unfold contentGenericBlock
        split
        · rename_i heq; rw [heq] at hc; cases hc
        · rename_i c2 heq
          rw [heq] at hc; injection hc with hc; subst hc
          rw [if_pos hmax]
          exact List.mem_append_right _ (List.mem_singleton.mpr rfl)
      · intro hty
        subst hty
        apply mem_validateField_of_arrayContentBlock
        unfold arrayContentBlock
        split
        · rename_i heq; rw [heq] at hc; cases hc
        · rename_i c2 heq
          rw [heq] at hc; injection hc with hc; subst hc
          rw [if_pos hmax]
          exact List.mem_append_right _ (List.mem_singleton.mpr rfl)
      · intro halias d hd hprop
        rcases validateField_cases hd with
          h | h | h | h | ⟨hno, -⟩ |
          ⟨r2, hr2, h | h | h |
            ⟨harr, h | ⟨-, h⟩ | ⟨ity, iprops, hit, h⟩ | ⟨ity, hit, h⟩ | ⟨ity, ps, hit, h⟩⟩ |
            h | h | h⟩
        · rw [(mem_typeBlock h).1]; decide
        · rw [(mem_descriptionBlock h).1]; decide
        · rw [(mem_nameBlock h).1]; decide
        · rw [(mem_defaultBlock h).1]; simp
        · simp at hno
        · rw [(mem_requiredBlock h).1]; simp
        · rw [(mem_contentGenericBlock h).1]; decide
        · rw [(mem_textBlock h).1]; decide
        · injection hr2 with hr2; subst hr2
          exact mem_arrayContentBlock_max_attr hc hmax h
        · subst h; simp
        · rw [(mem_itemsTypeBlock h).1]; decide
        · subst h; simp
        · subst hit
          obtain ⟨k2, hk2, h2⟩ := validateField_attribution.2 ps d h
          rw [hprop] at h2
          injection h2 with h2
          subst h2
          exact absurd (by simpa [keysBelow] using hk2) halias
        · rcases (mem_linkBlock h).2.2 with hx | hx | hx <;> (rw [hx]; decide)
        · rcases (mem_buttonBlock h).2.2 with hx | hx | hx <;> (rw [hx]; decide)
        · rcases (mem_imageBlock h).2.2 with hx | hx | hx | hx | hx | hx | hx <;>
            (rw [hx]; decide)
    · intro hty m hm hm0 hlt
      subst hty
      have htruthy : numTruthy c.max = true := by rw [hm]; simp [numTruthy, hm0]
      have hlt1 : c.max.getD 0 < 1 := by rw [hm]; simpa using hlt
      apply mem_validateField_of_arrayContentBlock
      unfold arrayContentBlock
      split
      · rename_i heq; rw [heq] at hc; cases hc
      · rename_i c2 heq
        rw [heq] at hc; injection hc with hc; subst hc
        apply List.mem_append_right
        rw [if_neg (show ¬ numTruthy c2.max = false by rw [htruthy]; simp), if_pos hlt1]
        exact List.mem_singleton.mpr rfl

/-- Witness for C9 at `pArrayNoBounds` (max absent) and `pArrayMaxNeg`
(max = -1). -/
theorem c9_witness :
    ((⟨"Content rules must have a maximum length", "rules.content.min", some "slides",
        some Severity.warning⟩ : FieldValidation) ∈ validateField pArrayNoBounds "slides") ∧
    ((⟨"Content rules must have a maximum length", "rules.content.min", some "slides",
        some Severity.error⟩ : FieldValidation) ∈ validateField pArrayNoBounds "slides") ∧
    (∀ d ∈ validateField pArrayNoBounds "slides", d.property = some "slides" →
      d.attr ≠ "rules.content.max") ∧
    ((⟨"Content rules maximum length must be greater than 0", "rules.content.max",
        some "slides", some Severity.error⟩ : FieldValidation) ∈
      validateField pArrayMaxNeg "slides") := by
  have h1 := (c9_max_missing_attr_is_min pArrayNoBounds "slides" _ _ rfl rfl).1 rfl
  have h2 := (c9_max_missing_attr_is_min pArrayMaxNeg "slides" _ _ rfl rfl).2 rfl (-1)
    rfl (by decide) (by decide)
  exact ⟨h1.1, h1.2.1 rfl, h1.2.2 (by decide), h2⟩

/-- C10: for every `link`, `button`, or `image` field with `rules` present
and an absent `default`, the output contains exactly two diagnostics with
attribute `default` for the same omission: the generic default-missing
warning followed by the type-specific default-required error. -/
theorem c10_duplicate_default_diagnostics (p : PropertyDefinition) (key : String) (r : Rules)
    (hrl : p.rules = some r) (hdf : p.dflt = DefaultVal.dUndefined)
    (hty : p.type = some "link" ∨ p.type = some "button" ∨ p.type = some "image") :
    ∃ m, (validateField p key).filter (fun d => d.attr == "default") =
      [⟨"Field default is required", "default", some key, some Severity.warning⟩,
       ⟨m, "default", some key, some Severity.error⟩] := by
  cases p with
  | mk ty nm ds df rl it =>
    simp only [PropertyDefinition.rules] at hrl
    simp only [PropertyDefinition.dflt] at hdf
    simp only [PropertyDefinition.type] at hty
    subst hrl; subst hdf
    obtain ⟨itemsPart, hdec⟩ := validateField_rules_decomp ty nm ds DefaultVal.dUndefined r it key
    have hdesc : (descriptionBlock ds key).filter (fun d => d.attr == "default") = [] :=
      List.filter_eq_nil_iff.mpr (fun d hd => by simp [(mem_descriptionBlock hd).1])
    have hname : (nameBlock nm key).filter (fun d => d.attr == "default") = [] :=
      List.filter_eq_nil_iff.mpr (fun d hd => by simp [(mem_nameBlock hd).1])
    have hreq : (requiredBlock r key).filter (fun d => d.attr == "default") = [] :=
      List.filter_eq_nil_iff.mpr (fun d hd => by
        have hx := congrArg FieldValidation.attr (mem_requiredBlock hd).1
        simp [hx])
    have hcg : (contentGenericBlock r key).filter (fun d => d.attr == "default") = [] :=
      List.filter_eq_nil_iff.mpr (fun d hd => by simp [(mem_contentGenericBlock hd).1])
    have hdim : (dimensionsBlock r key).filter (fun d => d.attr == "default") = [] :=
      List.filter_eq_nil_iff.mpr (fun d hd => by
        rcases (mem_dimensionsBlock hd).2.2 with hx | hx | hx | hx <;> simp [hx])
    rcases hty with hty | hty | hty <;> subst hty
    · refine ⟨"Default is required for link fields", ?_⟩
      rw [hdec, if_neg (by decide : ¬((some "link" : Option String) = some "array"))]
      have htxt : textBlock (some "link") r key = [] :=
        if_neg (by simp)
      rw [htxt]
      simp only [List.filter_append, hdesc, hname, hreq, hcg, List.filter_nil,
        List.append_nil, List.nil_append]
      rw [show (typeBlock (some "link") key).filter (fun d => d.attr == "default") = []
          from rfl,
        show (defaultBlock DefaultVal.dUndefined (some "link") key).filter
            (fun d => d.attr == "default") =
          [⟨"Field default is required", "default", some key, some Severity.warning⟩] from rfl,
        show (linkBlock (some "link") DefaultVal.dUndefined key).filter
            (fun d => d.attr == "default") =
          [⟨"Default is required for link fields", "default", some key, some Severity.error⟩]
          from rfl,
        show (buttonBlock (some "link") DefaultVal.dUndefined key).filter
            (fun d => d.attr == "default") = [] from rfl,
        show (imageBlock (some "link") DefaultVal.dUndefined r key).filter
            (fun d => d.attr == "default") = [] from rfl]
      simp
    · refine ⟨"Default is required for link fields", ?_⟩
      rw [hdec, if_neg (by decide : ¬((some "button" : Option String) = some "array"))]
      have htxt : textBlock (some "button") r key = [] :=
        if_neg (by simp)
      rw [htxt]
      simp only [List.filter_append, hdesc, hname, hreq, hcg, List.filter_nil,
        List.append_nil, List.nil_append]
      rw [show (typeBlock (some "button") key).filter (fun d => d.attr == "default") = []
          from rfl,
        show (defaultBlock DefaultVal.dUndefined (some "button") key).filter
            (fun d => d.attr == "default") =
          [⟨"Field default is required", "default", some key, some Severity.warning⟩] from rfl,
        show (linkBlock (some "button") DefaultVal.dUndefined key).filter
            (fun d => d.attr == "default") = [] from rfl,
        show (buttonBlock (some "button") DefaultVal.dUndefined key).filter
            (fun d => d.attr == "default") =
          [⟨"Default is required for link fields", "default", some key, some Severity.error⟩]
          from rfl,
        show (imageBlock (some "button") DefaultVal.dUndefined r key).filter
            (fun d => d.attr == "default") = [] from rfl]
      simp
    · refine ⟨"Default is required for image fields", ?_⟩
      rw [hdec, if_neg (by decide : ¬((some "image" : Option String) = some "array"))]
      have htxt : textBlock (some "image") r key = [] :=
        if_neg (by simp)
      have himg : (imageBlock (some "image") DefaultVal.dUndefined r key).filter
          (fun d => d.attr == "default") =
          [⟨"Default is required for image fields", "default", some key, some Severity.error⟩] := by
        unfold imageBlock
        rw [if_pos rfl]
        simp only [List.filter_append, hdim, List.append_nil]
        rfl
      rw [htxt]
      simp only [List.filter_append, hdesc, hname, hreq, hcg, himg, List.filter_nil,
        List.append_nil, List.nil_append]
      rw [show (typeBlock (some "image") key).filter (fun d => d.attr == "default") = []
          from rfl,
        show (defaultBlock DefaultVal.dUndefined (some "image") key).filter
            (fun d => d.attr == "default") =
          [⟨"Field default is required", "default", some key, some Severity.warning⟩] from rfl,
        show (linkBlock (some "image") DefaultVal.dUndefined key).filter
            (fun d => d.attr == "default") = [] from rfl,
        show (buttonBlock (some "image") DefaultVal.dUndefined key).filter
            (fun d => d.attr == "default") = [] from rfl]
      simp

/-- Witness for C10 at `pLinkNoDefault`. -/
theorem c10_witness :
    ∃ m, (validateField pLinkNoDefault "cta").filter (fun d => d.attr == "default") =
      [⟨"Field default is required", "default", some "cta", some Severity.warning⟩,
       ⟨m, "default", some "cta", some Severity.error⟩] :=
  c10_duplicate_default_diagnostics pLinkNoDefault "cta" _ rfl rfl (Or.inl rfl)

/-- C7 counterexample: at concrete array fields (content present,
`max = 5`), the min-absent error reads "minimum content length" while the
`min = -1` error reads "maximum content length" — the two message texts are
not identical, refuting the claim as stated. -/
theorem c7_counterexample :
    ((validateField pArrayMinAbsent "slides").filter
        (fun d => d.attr == "rules.content.min" && d.severity == some Severity.error) =
      [⟨"Array fields must have a minimum content length", "rules.content.min", some "slides",
        some Severity.error⟩]) ∧
    ((validateField pArrayMinNeg "slides").filter
        (fun d => d.attr == "rules.content.min" && d.severity == some Severity.error) =
      [⟨"Array fields must have a maximum content length", "rules.content.min", some "slides",
        some Severity.error⟩]) ∧
    "Array fields must have a minimum content length" ≠
      "Array fields must have a maximum content length" := by decide

/-- C7 amended: for an array field with `rules.content` present, `min`
absent yields an error reading "Array fields must have a minimum content
length" and `min < 1` (nonzero) yields an error reading "Array fields must
have a maximum content length"; the two message texts differ (the second
duplicates the "maximum" wording), both under attribute
`rules.content.min`. -/
theorem c7_amended_min_messages (p : PropertyDefinition) (key : String) (r : Rules)
    (c : ContentRules) (hty : p.type = some "array") (hrl : p.rules = some r)
    (hc : r.content = some c) :
    (numTruthy c.min = false →
      (⟨"Array fields must have a minimum content length", "rules.content.min", some key,
        some Severity.error⟩ : FieldValidation) ∈ validateField p key) ∧
    (∀ m : Int, c.min = some m → m ≠ 0 → m < 1 →
      (⟨"Array fields must have a maximum content length", "rules.content.min", some key,
        some Severity.error⟩ : FieldValidation) ∈ validateField p key) ∧
    "Array fields must have a minimum content length" ≠
      "Array fields must have a maximum content length" := by
  cases p with
  | mk ty nm ds df rl it =>
    simp only [PropertyDefinition.type] at hty
    simp only [PropertyDefinition.rules] at hrl
    subst hty; subst hrl
    refine ⟨?_, ?_, by decide⟩
    · intro hmin
      apply mem_validateField_of_arrayContentBlock
      unfold arrayContentBlock
      split
      · rename_i heq; rw [heq] at hc; cases hc
      · rename_i c2 heq
        rw [heq] at hc; injection hc with hc; subst hc
        apply List.mem_append_left
        rw [if_pos hmin]
        exact List.mem_singleton.mpr rfl
    · intro m hm hm0 hlt
      have htruthy : numTruthy c.min = true := by rw [hm]; simp [numTruthy, hm0]
      have hlt1 : c.min.getD 0 < 1 := by rw [hm]; simpa using hlt
      apply mem_validateField_of_arrayContentBlock
      unfold arrayContentBlock
      split
      · rename_i heq; rw [heq] at hc; cases hc
      · rename_i c2 heq
        rw [heq] at hc; injection hc with hc; subst hc
        apply List.mem_append_left
        rw [if_neg (show ¬ numTruthy c2.min = false by rw [htruthy]; simp), if_pos hlt1]
        exact List.mem_singleton.mpr rfl

/-- Witness for the amended C7 at `pArrayMinAbsent` and `pArrayMinNeg`. -/
theorem c7_amended_witness :
    ((⟨"Array fields must have a minimum content length", "rules.content.min", some "slides",
        some Severity.error⟩ : FieldValidation) ∈ validateField pArrayMinAbsent "slides") ∧
    ((⟨"Array fields must have a maximum content length", "rules.content.min", some "slides",
        some Severity.error⟩ : FieldValidation) ∈ validateField pArrayMinNeg "slides") :=
  ⟨(c7_amended_min_messages pArrayMinAbsent "slides" _ _ rfl rfl rfl).1 rfl,
   (c7_amended_min_messages pArrayMinNeg "slides" _ _ rfl rfl rfl).2.1 (-1)
     rfl (by decide) (by decide)⟩

/-! ### C8 machinery: the exception-explicit validator never fails -/

theorem exceptOkBind {α β : Type} (a : α) (f : α → Except String β) :
    (Except.ok a : Except String α) >>= f = f a := rfl

theorem exceptPureOk {α : Type} (a : α) : (pure a : Except String α) = Except.ok a := rfl

theorem contentGenericBlockE_ok (r : Rules) (key : String) :
    contentGenericBlockE (some r) key = Except.ok (contentGenericBlock r key) := by
  obtain ⟨req, rcon, rdim⟩ := r
  cases rcon <;> rfl

theorem textBlockE_ok (ty : Option String) (r : Rules) (key : String) :
    textBlockE ty (some r) key = Except.ok (textBlock ty r key) := by
  unfold textBlockE
  split
  · rfl
  · rename_i h
    rw [textBlock, if_neg (fun hc => h hc.1)]
    rfl

theorem arrayContentBlockE_ok (r : Rules) (key : String) :
    arrayContentBlockE (some r) key = Except.ok (arrayContentBlock r key) := by
  obtain ⟨req, rcon, rdim⟩ := r
  cases rcon <;> rfl

theorem linkBlockE_ok (ty : Option String) (df : DefaultVal) (key : String) :
    linkBlockE ty df key = Except.ok (linkBlock ty df key) := by
  unfold linkBlockE
  split
  · rename_i h
    subst h
    cases df <;> rfl
  · rename_i h
    unfold linkBlock
    rw [if_neg h]
    rfl

theorem buttonBlockE_ok (ty : Option String) (df : DefaultVal) (key : String) :
    buttonBlockE ty df key = Except.ok (buttonBlock ty df key) := by
  unfold buttonBlockE
  split
  · rename_i h
    subst h
    cases df <;> rfl
  · rename_i h
    unfold buttonBlock
    rw [if_neg h]
    rfl

theorem dimensionsBlockE_ok (r : Rules) (key : String) :
    dimensionsBlockE (some r) key = Except.ok (dimensionsBlock r key) := by
  obtain ⟨req, rcon, rdim⟩ := r
  cases rdim with
  | none => rfl
  | some dims =>
    obtain ⟨dmin⟩ := dims
    cases dmin <;> rfl

theorem imageBlockE_ok (ty : Option String) (df : DefaultVal) (r : Rules) (key : String) :
    imageBlockE ty df (some r) key = Except.ok (imageBlock ty df r key) := by
  unfold imageBlockE
  split
  · rename_i h
    subst h
    obtain ⟨req, rcon, rdim⟩ := r
    cases rdim with
    | none => cases df <;> rfl
    | some dims =>
      obtain ⟨dmin⟩ := dims
      cases dmin with
      | none => cases df <;> rfl
      | some mn => cases df <;> rfl
  · rename_i h
    unfold imageBlock
    rw [if_neg h]
    rfl

theorem validateE_agrees :
    (∀ p key, validateFieldE p key = Except.ok (validateField p key)) ∧
    (∀ ps : List (String × PropertyDefinition),
      validatePropsE ps = Except.ok (validateProps ps)) := by
  refine propertyRecursion
    (fun p => ∀ key, validateFieldE p key = Except.ok (validateField p key))
    (fun ps => validatePropsE ps = Except.ok (validateProps ps)) ?_ ?_ ?_
  · intro ty nm ds df rl it IH key
    cases rl with
    | none =>
      rw [validateFieldE.eq_1, validateField.eq_1]
      rfl
    | some r =>
      cases it with
      | none =>
        rw [validateFieldE.eq_2, validateField.eq_2]
        simp only [jsGet, exceptOkBind, exceptPureOk, contentGenericBlockE_ok,
          textBlockE_ok, linkBlockE_ok, buttonBlockE_ok, imageBlockE_ok,
          arrayContentBlockE_ok]
        by_cases hA : ty = some "array" <;> simp [hA, List.append_assoc]
      | some itv =>
        obtain ⟨ity, ip⟩ := itv
        cases ip with
        | none =>
          rw [validateFieldE.eq_2, validateField.eq_3]
          simp only [jsGet, exceptOkBind, exceptPureOk, contentGenericBlockE_ok,
            textBlockE_ok, linkBlockE_ok, buttonBlockE_ok, imageBlockE_ok,
            arrayContentBlockE_ok]
          by_cases hA : ty = some "array" <;> simp [hA, List.append_assoc]
        | some ps =>
          rw [validateFieldE.eq_2, validateField.eq_4]
          simp only [jsGet, exceptOkBind, exceptPureOk, contentGenericBlockE_ok,
            textBlockE_ok, linkBlockE_ok, buttonBlockE_ok, imageBlockE_ok,
            arrayContentBlockE_ok, IH ity ps rfl]
          by_cases hA : ty = some "array" <;> simp [hA, List.append_assoc]
  · rfl
  · intro k q rest IHq IHrest
    rw [validatePropsE.eq_2, IHq k, IHrest]
    simp only [exceptOkBind, exceptPureOk, validateProps.eq_2]

/-- C8: the field validator is total and never throws: the
exception-explicit semantics `validateFieldE`, in which every member access
below a possibly-absent object raises a `TypeError`, always returns
`Except.ok` with exactly the diagnostics of `validateField` (so no access
below a missing object is ever performed), and traversal never aborts:
sibling property lists contribute their diagnostics independently,
concatenated. -/
theorem c8_total_no_throw :
    (∀ p key, validateFieldE p key = Except.ok (validateField p key)) ∧
    (∀ l1 l2 : List (String × PropertyDefinition),
      validateProps (l1 ++ l2) = validateProps l1 ++ validateProps l2) := by
  refine ⟨validateE_agrees.1, ?_⟩
  intro l1 l2
  induction l1 with
  | nil => simp [validateProps]
  | cons hd rest ih =>
    obtain ⟨k, q⟩ := hd
    rw [List.cons_append, validateProps.eq_2, validateProps.eq_2, ih, List.append_assoc]

/-! ### C1 machinery: fully populated properties produce no diagnostics -/

theorem typeBlock_nil {ty : Option String} {key : String}
    (h1 : strTruthy ty = true) (h2 : FieldTypes.contains (ty.getD "") = true) :
    typeBlock ty key = [] := by
  unfold typeBlock
  rw [if_neg (by simp [h1]), if_neg (by simpa using h2)]

theorem descriptionBlock_nil {ds : Option String} {key : String}
    (h : strTruthy ds = true) : descriptionBlock ds key = [] := by
  unfold descriptionBlock
  rw [if_neg (by simp [h])]

theorem nameBlock_nil {nm : Option String} {key : String}
    (h : strTruthy nm = true) : nameBlock nm key = [] := by
  unfold nameBlock
  rw [if_neg (by simp [h])]

theorem defaultBlock_nil {df : DefaultVal} {ty : Option String} {key : String}
    (h : ty = some "array" ∨ df ≠ DefaultVal.dUndefined) : defaultBlock df ty key = [] := by
  have hn : ¬(df = DefaultVal.dUndefined ∧ ty ≠ some "array") := by
    rintro ⟨hdf, hty⟩
    rcases h with h | h
    · exact hty h
    · exact h hdf
  unfold defaultBlock
  rw [if_neg hn]

theorem requiredBlock_nil {r : Rules} {key : String}
    (h : r.required = ReqVal.rTrue ∨ r.required = ReqVal.rFalse) :
    requiredBlock r key = [] := by
  unfold requiredBlock
  split
  · rename_i hh
    rcases h with h | h <;> (rw [hh] at h; cases h)
  · rfl

theorem contentGenericBlock_nil {r : Rules} {key : String}
    (hok : ∀ c, r.content = some c →
      numTruthy c.max = true ∧ (r.required = ReqVal.rTrue → numTruthy c.min = true)) :
    contentGenericBlock r key = [] := by
  unfold contentGenericBlock
  split
  · rfl
  · rename_i c heq
    obtain ⟨hmax, hmin⟩ := hok c heq
    rw [if_neg (by rintro ⟨hm, hr⟩; rw [hmin hr] at hm; cases hm), if_neg (by simp [hmax])]
    rfl

theorem textBlock_nil {ty : Option String} {r : Rules} {key : String}
    (h : ty = some "text" → r.content ≠ none) : textBlock ty r key = [] := by
  unfold textBlock
  rw [if_neg (fun hc => h hc.1 hc.2)]

theorem arrayContentBlock_nil {r : Rules} {key : String} {c : ContentRules} {m M : Int}
    (heqc : r.content = some c) (hm : c.min = some m) (hM : c.max = some M)
    (h1 : 1 ≤ m) (h2 : 1 ≤ M) : arrayContentBlock r key = [] := by
  unfold arrayContentBlock
  split
  · rename_i heq; rw [heq] at heqc; cases heqc
  · rename_i c2 heq
    rw [heq] at heqc; injection heqc with heqc; subst heqc
    rw [if_neg (by rw [hm]; simp [numTruthy]; omega),
        if_neg (by rw [hm]; simp; omega),
        if_neg (by rw [hM]; simp [numTruthy]; omega),
        if_neg (by rw [hM]; simp; omega)]
    rfl

theorem itemsTypeBlock_nil {ity : Option String} {key : String}
    (h1 : strTruthy ity = true) (h2 : FieldTypes.contains (ity.getD "") = true) :
    itemsTypeBlock ity key = [] := by
  unfold itemsTypeBlock
  rw [if_neg (by simp [h1]), if_neg (by simpa using h2)]

theorem linkBlock_nil {ty : Option String} {df : DefaultVal} {key : String}
    (h : ty = some "link" → ∃ keys, df = DefaultVal.dObj keys ∧
      keys.contains "url" = true ∧ keys.contains "text" = true) :
    linkBlock ty df key = [] := by
  unfold linkBlock
  split
  · rename_i hL
    obtain ⟨keys, hdf, hu, ht⟩ := h hL
    subst hdf
    simp
    exact ⟨by simpa using hu, by simpa using ht⟩
  · rfl

theorem buttonBlock_nil {ty : Option String} {df : DefaultVal} {key : String}
    (h : ty = some "button" → ∃ keys, df = DefaultVal.dObj keys ∧
      keys.contains "url" = true ∧ keys.contains "label" = true) :
    buttonBlock ty df key = [] := by
  unfold buttonBlock
  split
  · rename_i hB
    obtain ⟨keys, hdf, hu, hl⟩ := h hB
    subst hdf
    simp
    exact ⟨by simpa using hu, by simpa using hl⟩
  · rfl

theorem dimensionsBlock_nil {r : Rules} {key : String}
    (h : ∃ dims mn, r.dimensions = some dims ∧ dims.min = some mn ∧
      numTruthy mn.width = true ∧ numTruthy mn.height = true) :
    dimensionsBlock r key = [] := by
  obtain ⟨dims, mn, hdims, hmn, hw, hh⟩ := h
  unfold dimensionsBlock
  split
  · rename_i heq; rw [heq] at hdims; cases hdims
  · rename_i dims2 heq
    rw [heq] at hdims; injection hdims with hdims; subst hdims
    split
    · rename_i heq2; rw [heq2] at hmn; cases hmn
    · rename_i mn2 heq2
      rw [heq2] at hmn; injection hmn with hmn; subst hmn
      rw [if_neg (by simp [hw]), if_neg (by simp [hh])]
      rfl

theorem imageBlock_nil {ty : Option String} {df : DefaultVal} {r : Rules} {key : String}
    (h : ty = some "image" →
      (∃ keys, df = DefaultVal.dObj keys ∧ keys.contains "src" = true ∧
        keys.contains "alt" = true) ∧
      (∃ dims mn, r.dimensions = some dims ∧ dims.min = some mn ∧
        numTruthy mn.width = true ∧ numTruthy mn.height = true)) :
    imageBlock ty df r key = [] := by
  unfold imageBlock
  split
  · rename_i hI
    obtain ⟨⟨keys, hdf, hs, ha⟩, hdim⟩ := h hI
    subst hdf
    rw [dimensionsBlock_nil hdim]
    simp
    exact ⟨by simpa using hs, by simpa using ha⟩
  · rfl

theorem contentOK_spec {r : Rules} (h : contentOK r = true) :
    ∀ c, r.content = some c →
      numTruthy c.max = true ∧ (r.required = ReqVal.rTrue → numTruthy c.min = true) := by
  intro c heq
  unfold contentOK at h
  split at h
  · rename_i heq2; rw [heq2] at heq; cases heq
  · rename_i c2 heq2
    rw [heq2] at heq; injection heq with heq; subst heq
    simp only [Bool.and_eq_true, Bool.or_eq_true, Bool.not_eq_true', beq_eq_false_iff_ne,
      ne_eq, beq_iff_eq] at h
    refine ⟨h.1, fun hr => ?_⟩
    rcases h.2 with h2 | h2
    · exact absurd hr h2
    · exact h2

theorem arrayContentOK_spec {r : Rules} (h : arrayContentOK r = true) :
    ∃ c m M, r.content = some c ∧ c.min = some m ∧ c.max = some M ∧ 1 ≤ m ∧ 1 ≤ M := by
  unfold arrayContentOK at h
  split at h
  · rename_i c heq
    simp only [Bool.and_eq_true] at h
    obtain ⟨hmin, hmax⟩ := h
    unfold boundPos at hmin hmax
    split at hmin
    · rename_i m heqm
      split at hmax
      · rename_i M heqM
        exact ⟨c, m, M, heq, heqm, heqM, by simpa using hmin, by simpa using hmax⟩
      · cases hmax
    · cases hmin
  · cases h

theorem defaultObjWith_spec {df : DefaultVal} {k1 k2 : String}
    (h : defaultObjWith df k1 k2 = true) :
    ∃ keys, df = DefaultVal.dObj keys ∧ keys.contains k1 = true ∧ keys.contains k2 = true := by
  unfold defaultObjWith at h
  split at h
  · rename_i keys
    simp only [Bool.and_eq_true] at h
    exact ⟨keys, rfl, h.1, h.2⟩
  · cases h

theorem dimensionsOK_spec {r : Rules} (h : dimensionsOK r = true) :
    ∃ dims mn, r.dimensions = some dims ∧ dims.min = some mn ∧
      numTruthy mn.width = true ∧ numTruthy mn.height = true := by
  unfold dimensionsOK at h
  split at h
  · rename_i dims heq
    split at h
    · rename_i mn heq2
      simp only [Bool.and_eq_true] at h
      exact ⟨dims, mn, heq, heq2, h.1, h.2⟩
    · cases h
  · cases h

/-- A fully populated property tree produces no diagnostics. -/
theorem validateField_nil_of_valid :
    (∀ p, validPropertyB p = true → ∀ key, validateField p key = []) ∧
    (∀ ps : List (String × PropertyDefinition), validPropsB ps = true →
      validateProps ps = []) := by
  refine propertyRecursion
    (fun p => validPropertyB p = true → ∀ key, validateField p key = [])
    (fun ps => validPropsB ps = true → validateProps ps = []) ?_ ?_ ?_
  · intro ty nm ds df rl it IH hv key
    cases rl with
    | none =>
      exfalso
      cases it with
      | none => simp [validPropertyB] at hv
      | some itv =>
        obtain ⟨ity, ip⟩ := itv
        cases ip <;> simp [validPropertyB] at hv
    | some r =>
      cases it with
      | none =>
        simp only [validPropertyB, Bool.and_eq_true, Bool.or_eq_true, beq_iff_eq,
          Bool.not_eq_true', beq_eq_false_iff_ne, ne_eq] at hv
        obtain ⟨⟨⟨⟨⟨h1, h2⟩, h3⟩, h4⟩, h5⟩,
          ⟨⟨⟨⟨⟨hreq, hcg⟩, htxt⟩, harr⟩, hlink⟩, hbtn⟩, himg⟩ := hv
        have hA : ¬ ty = some "array" := by
          rcases harr with h | ⟨-, hfalse⟩
          · exact h
          · simp at hfalse
        rw [validateField.eq_2, if_neg hA,
          typeBlock_nil h1 h2, descriptionBlock_nil h4, nameBlock_nil h3,
          defaultBlock_nil h5, requiredBlock_nil hreq,
          contentGenericBlock_nil (contentOK_spec hcg),
          textBlock_nil (fun hty hc => by
            rcases htxt with h | h
            · exact h hty
            · rw [hc] at h; simp at h),
          linkBlock_nil (fun hty => by
            rcases hlink with h | h
            · exact absurd hty h
            · exact defaultObjWith_spec h),
          buttonBlock_nil (fun hty => by
            rcases hbtn with h | h
            · exact absurd hty h
            · exact defaultObjWith_spec h),
          imageBlock_nil (fun hty => by
            rcases himg with h | ⟨hdo, hdim⟩
            · exact absurd hty h
            · exact ⟨defaultObjWith_spec hdo, dimensionsOK_spec hdim⟩)]
        rfl
      | some itv =>
        obtain ⟨ity, ip⟩ := itv
        cases ip with
        | none =>
          simp only [validPropertyB, Bool.and_eq_true, Bool.or_eq_true, beq_iff_eq,
            Bool.not_eq_true', beq_eq_false_iff_ne, ne_eq] at hv
          obtain ⟨⟨⟨⟨⟨h1, h2⟩, h3⟩, h4⟩, h5⟩,
            ⟨⟨⟨⟨⟨hreq, hcg⟩, htxt⟩, harr⟩, hlink⟩, hbtn⟩, himg⟩ := hv
          have hA : ¬ ty = some "array" := by
            rcases harr with h | ⟨-, hfalse⟩
            · exact h
            · simp at hfalse
          rw [validateField.eq_3, if_neg hA,
            typeBlock_nil h1 h2, descriptionBlock_nil h4, nameBlock_nil h3,
            defaultBlock_nil h5, requiredBlock_nil hreq,
            contentGenericBlock_nil (contentOK_spec hcg),
            textBlock_nil (fun hty hc => by
              rcases htxt with h | h
              · exact h hty
              · rw [hc] at h; simp at h),
            linkBlock_nil (fun hty => by
              rcases hlink with h | h
              · exact absurd hty h
              · exact defaultObjWith_spec h),
            buttonBlock_nil (fun hty => by
              rcases hbtn with h | h
              · exact absurd hty h
              · exact defaultObjWith_spec h),
            imageBlock_nil (fun hty => by
              rcases himg with h | ⟨hdo, hdim⟩
              · exact absurd hty h
              · exact ⟨defaultObjWith_spec hdo, dimensionsOK_spec hdim⟩)]
          rfl
        | some ps =>
          simp only [validPropertyB, Bool.and_eq_true, Bool.or_eq_true, beq_iff_eq,
            Bool.not_eq_true', beq_eq_false_iff_ne, ne_eq] at hv
          obtain ⟨⟨⟨⟨⟨h1, h2⟩, h3⟩, h4⟩, h5⟩,
            ⟨⟨⟨⟨⟨hreq, hcg⟩, htxt⟩, harr⟩, hlink⟩, hbtn⟩, himg⟩ := hv
          by_cases hA : ty = some "array"
          · rcases harr with h | ⟨hac, ⟨⟨hity1, hity2⟩, hps⟩⟩
            · exact absurd hA h
            obtain ⟨cc, m, M, heqc, hm, hM, h1m, h1M⟩ := arrayContentOK_spec hac
            rw [validateField.eq_4, if_pos hA,
              typeBlock_nil h1 h2, descriptionBlock_nil h4, nameBlock_nil h3,
              defaultBlock_nil (Or.inl hA), requiredBlock_nil hreq,
              contentGenericBlock_nil (contentOK_spec hcg),
              textBlock_nil (fun hty hc => by
                rcases htxt with h | h
                · exact h hty
                · rw [hc] at h; simp at h),
              arrayContentBlock_nil heqc hm hM h1m h1M,
              itemsTypeBlock_nil hity1 hity2, IH ity ps rfl hps,
              linkBlock_nil (fun hty => by
                rcases hlink with h | h
                · exact absurd hty h
                · exact defaultObjWith_spec h),
              buttonBlock_nil (fun hty => by
                rcases hbtn with h | h
                · exact absurd hty h
                · exact defaultObjWith_spec h),
              imageBlock_nil (fun hty => by
                rcases himg with h | ⟨hdo, hdim⟩
                · exact absurd hty h
                · exact ⟨defaultObjWith_spec hdo, dimensionsOK_spec hdim⟩)]
            rfl
          · rw [validateField.eq_4, if_neg hA,
              typeBlock_nil h1 h2, descriptionBlock_nil h4, nameBlock_nil h3,
              defaultBlock_nil (by tauto), requiredBlock_nil hreq,
              contentGenericBlock_nil (contentOK_spec hcg),
              textBlock_nil (fun hty hc => by
                rcases htxt with h | h
                · exact h hty
                · rw [hc] at h; simp at h),
              linkBlock_nil (fun hty => by
                rcases hlink with h | h
                · exact absurd hty h
                · exact defaultObjWith_spec h),
              buttonBlock_nil (fun hty => by
                rcases hbtn with h | h
                · exact absurd hty h
                · exact defaultObjWith_spec h),
              imageBlock_nil (fun hty => by
                rcases himg with h | ⟨hdo, hdim⟩
                · exact absurd hty h
                · exact ⟨defaultObjWith_spec hdo, dimensionsOK_spec hdim⟩)]
            rfl
  · intro _
    rfl
  · intro k q rest IHq IHrest hv
    simp only [validPropsB, Bool.and_eq_true] at hv
    rw [validateProps.eq_2, IHq hv.1 k, IHrest hv.2]
    rfl

/-- C1: every valid component — with a `code`, a `title`, an array-valued
`tags`, and a non-empty, fully populated `properties` mapping — receives the
empty diagnostic list from the component validator. -/
theorem c1_valid_component_no_diagnostics (c : HandoffComponent)
    (h : validComponentB c = true) : validateModule c = [] := by
  obtain ⟨code, title, tags, props⟩ := c
  cases props with
  | none => simp [validComponentB] at h
  | some ps =>
    simp only [validComponentB, Bool.and_eq_true, beq_iff_eq] at h
    obtain ⟨⟨⟨h1, h2⟩, h3⟩, hne, hps⟩ := h
    subst h3
    unfold validateModule
    rw [if_neg (by simp [h1]), if_neg (by simp [h2])]
    dsimp only
    rw [validateField_nil_of_valid.2 ps hps]
    rfl

/-- Witness for C1: the concrete component `validComp` is valid and
validates to the empty list. -/
theorem c1_witness : validComponentB validComp = true ∧ validateModule validComp = [] :=
  ⟨by decide, c1_valid_component_no_diagnostics validComp (by decide)⟩
